import Mathlib

/-!
# Robot store (`models/models.go`) and its HTTP handlers (`main.go`)

A shallow embedding of the in-memory robot store: the reference catalog
(`ReferenceValues`), the record type (`Robot`), the store (`RobotStore`) and its
operations `GetRobot`, `ExistsRobot`, `AddRobot`, `DeleteRobot`,
`UpdateReferenceValues` and the helper `contains`; and of the request handlers of
`main.go` that use it, together with the seed loader `loadInitialData`.

Modelling choices:

* Go strings are Lean `String`s; the code only compares them for equality, splits
  them on a comma and concatenates them into messages.
* Go slices are Lean `List`s; `append(s, v)` is `s ++ [v]`.
* The Go `map[string]Robot` is a finite association list with pairwise distinct
  keys (`AList`): `m[k]` is `AList.lookup`, `m[k] = v` is `AList.insert`
  (insert or replace), `delete(m, k)` is `AList.erase`. Go leaves the order of
  `range` over a map unspecified; the model ranges in the order of the entries,
  and the theorems about the listing do not depend on that order.
* A method with a pointer receiver that mutates the store takes the store and
  returns the store it leaves behind; `AddRobot` returns that store together
  with its Go `error` (`none` for `nil`).
* The mutex field `mu` carries no data. The four locking methods appear as events
  in the trace a handler leaves, next to its accesses to the store.
* A handler takes the store and the decoded parts of the request (path code,
  query values, the result of decoding the JSON body, `none` when decoding fails)
  and returns an `Outcome`: the store it leaves, the HTTP status, the body it
  writes, and its trace.
-/

namespace models

/-- The Go struct `ValidationError`. -/
structure ValidationError where
  Field : String
  Message : String
deriving DecidableEq

/-- The method `(*ValidationError).Error`: `fmt.Sprintf("%s: %s", e.Field, e.Message)`. -/
def ValidationError.Error (e : ValidationError) : String :=
  e.Field ++ ": " ++ e.Message

/-- The Go struct `ReferenceValues`: three vocabularies kept as slices. -/
structure ReferenceValues where
  Models : List String
  Techs : List String
  Status : List String
deriving DecidableEq

/-- The Go struct `Robot`. -/
structure Robot where
  Code : String
  Name : String
  Description : String
  Model : String
  Tech : List String
  Status : String
deriving DecidableEq

/-- The Go type `map[string]Robot`. -/
abbrev RobotMap : Type := AList (fun _ : String => Robot)

/-- The Go struct `RobotStore` (without its mutex). -/
structure RobotStore where
  Robots : RobotMap
  Refs : ReferenceValues
deriving DecidableEq

/-- The zero value of `Robot`, which a Go map read yields for a missing key. -/
def zeroRobot : Robot :=
  { Code := "", Name := "", Description := "", Model := "", Tech := [], Status := "" }

/-- The constructor `NewRobotStore`: an empty map and the default catalog. -/
def NewRobotStore : RobotStore :=
  { Robots := ∅
    Refs :=
      { Models := ["car", "humanoid", "transformation"]
        Techs := ["AI", "car", "robot", "cyborg", "humanoid"]
        Status := ["progress", "active", "inactive"] } }

/-- The helper `contains`: a linear scan returning at the first equal item. -/
def contains : List String → String → Bool
  | [], _ => false
  | item :: rest, val => if item = val then true else contains rest val

/-- How `fmt` renders a `[]string` under the verb `%v`: the elements separated by
single spaces, inside square brackets. -/
def fmtSlice (l : List String) : String :=
  "[" ++ " ".intercalate l ++ "]"

/-- The method `GetRobot`: the two-value map read `rs.Robots[code]`. -/
def GetRobot (rs : RobotStore) (code : String) : Robot × Bool :=
  match rs.Robots.lookup code with
  | some robot => (robot, true)
  | none => (zeroRobot, false)

/-- The method `ExistsRobot`: the presence flag of the map read. -/
def ExistsRobot (rs : RobotStore) (code : String) : Bool :=
  match rs.Robots.lookup code with
  | some _ => true
  | none => false

/-- The tech loop of `AddRobot`: ranges over `robot.Tech` in order and stops at the
first entry that `contains` rejects, yielding that entry. -/
def firstInvalidTech (techs : List String) : List String → Option String
  | [] => none
  | tech :: rest => if !contains techs tech then some tech else firstInvalidTech techs rest

/-- The method `AddRobot`: five checks in sequence, each returning its own
`ValidationError` without touching the store; when all pass the record is
written under its code. The result is the store after the call and the error. -/
def AddRobot (rs : RobotStore) (robot : Robot) : RobotStore × Option ValidationError :=
  if robot.Code = "" then
    (rs, some { Field := "Code", Message := "Code cannot be empty" })
  else if !contains rs.Refs.Models robot.Model then
    (rs, some { Field := "Model"
                Message := "Invalid model. Allowed models: " ++ fmtSlice rs.Refs.Models })
  else
    match firstInvalidTech rs.Refs.Techs robot.Tech with
    | some tech =>
      (rs, some { Field := "Tech"
                  Message := "Invalid tech: " ++ tech ++ ". Allowed techs: "
                    ++ fmtSlice rs.Refs.Techs })
    | none =>
      if !contains rs.Refs.Status robot.Status then
        (rs, some { Field := "Status"
                    Message := "Invalid status. Allowed status: " ++ fmtSlice rs.Refs.Status })
      else if robot.Name = "" then
        (rs, some { Field := "Name", Message := "Name cannot be empty" })
      else
        ({ rs with Robots := rs.Robots.insert robot.Code robot }, none)

/-- The method `DeleteRobot`: `delete(rs.Robots, code)`. -/
def DeleteRobot (rs : RobotStore) (code : String) : RobotStore :=
  { rs with Robots := rs.Robots.erase code }

/-- One loop of `UpdateReferenceValues`: ranges over the new values in order and
appends each one that the list built so far does not contain. -/
def appendMissing : List String → List String → List String
  | cur, [] => cur
  | cur, v :: rest =>
    if !contains cur v then appendMissing (cur ++ [v]) rest else appendMissing cur rest

/-- The method `UpdateReferenceValues`: the three loops, one per vocabulary. -/
def UpdateReferenceValues (rs : RobotStore) (newRefs : ReferenceValues) : RobotStore :=
  { rs with
    Refs :=
      { Models := appendMissing rs.Refs.Models newRefs.Models
        Techs := appendMissing rs.Refs.Techs newRefs.Techs
        Status := appendMissing rs.Refs.Status newRefs.Status } }

/-- A call a client can make on the store. -/
inductive Call where
  | addRobot (robot : Robot)
  | deleteRobot (code : String)
  | updateReferenceValues (newRefs : ReferenceValues)

/-- The store left behind by one call (the error of `AddRobot` is dropped). -/
def step (rs : RobotStore) : Call → RobotStore
  | .addRobot robot => (AddRobot rs robot).1
  | .deleteRobot code => DeleteRobot rs code
  | .updateReferenceValues newRefs => UpdateReferenceValues rs newRefs

/-- The store reached from `rs` by a finite sequence of calls, first call first. -/
def runCalls (rs : RobotStore) : List Call → RobotStore
  | [] => rs
  | c :: cs => runCalls (step rs c) cs

/-- Specification side of the catalog merge: each value kept at its first
occurrence, later repetitions dropped. -/
def firstOccurrences : List String → List String
  | [] => []
  | v :: rest => v :: (firstOccurrences rest).filter (fun w => decide (w ≠ v))

/-- Specification side of the catalog merge: the old list followed by the new
values that are not in the old list, each once, in order of first occurrence. -/
def mergeSpec (old new : List String) : List String :=
  old ++ firstOccurrences (new.filter (fun v => decide (v ∉ old)))

/-! ### The handlers of `main.go` -/

/-- What a handler does to the shared store, in program order: a call of one of
the four lock methods of `RobotStore`, or an access to the store. `read` is a
read-only access (`GetRobot`, `ExistsRobot`, ranging over `robotStore.Robots`,
reading `robotStore.Refs`); `write` is a call of a method that can write
(`AddRobot`, `DeleteRobot`, `UpdateReferenceValues`). -/
inductive Event where
  | LockRead
  | UnlockRead
  | Lock
  | Unlock
  | read
  | write
deriving DecidableEq

/-- What a handler writes to the response. `error msg` is `http.Error(w, msg, _)`;
the other non-empty cases are the value given to the JSON encoder. -/
inductive Body where
  | empty
  | error (msg : String)
  | robot (r : Robot)
  | robots (l : List Robot)
  | refs (v : ReferenceValues)
deriving DecidableEq

/-- The observable result of running a handler on a store. -/
structure Outcome where
  store : RobotStore
  status : Nat
  body : Body
  trace : List Event
deriving DecidableEq

/-- Scanner behind `stringsSplit`: `cur` holds the characters of the current piece,
last one first. -/
def splitAux (sep : Char) : List Char → List Char → List String
  | [], cur => [String.mk cur.reverse]
  | c :: cs, cur =>
    if c = sep then String.mk cur.reverse :: splitAux sep cs [] else splitAux sep cs (c :: cur)

/-- The library function `strings.Split(s, sep)` for a one-character separator: the
pieces of `s` between the separators, in order (one piece more than there are
separators, so the empty string gives one empty piece). -/
def stringsSplit (s : String) (sep : Char) : List String :=
  splitAux sep s.data []

/-- The helper `containsTech`: a linear scan returning at the first equal item. -/
def containsTech : List String → String → Bool
  | [], _ => false
  | tech :: rest, searchTech => if tech = searchTech then true else containsTech rest searchTech

/-- The inner loop of `getRobots`: `match` starts true and the loop breaks with
`match = false` at the first requested tech the robot lacks. -/
def matchTechs (robotTech : List String) : List String → Bool
  | [] => true
  | tech :: rest => if !containsTech robotTech tech then false else matchTechs robotTech rest

/-- The outer loop of `getRobots` over the robots ranged over, `filteredRobots`
being the slice built so far: a robot is skipped (`continue`) on a model mismatch
or, when a tech query is given, on a tech mismatch, and appended otherwise. -/
def getRobotsLoop (model techQuery : String) (techs : List String) :
    List Robot → List Robot → List Robot
  | filteredRobots, [] => filteredRobots
  | filteredRobots, robot :: rest =>
    if model ≠ "" ∧ robot.Model ≠ model then
      getRobotsLoop model techQuery techs filteredRobots rest
    else if techQuery ≠ "" ∧ matchTechs robot.Tech techs = false then
      getRobotsLoop model techQuery techs filteredRobots rest
    else
      getRobotsLoop model techQuery techs (filteredRobots ++ [robot]) rest

/-- The handler `getRobots`; `model` and `techQuery` are the values of the query
parameters `model` and `tech` (empty when absent). -/
def getRobots (rs : RobotStore) (model techQuery : String) : Outcome :=
  { store := rs
    status := 200
    body := Body.robots
      (getRobotsLoop model techQuery (stringsSplit techQuery ',') []
        (rs.Robots.entries.map (fun e => e.2)))
    trace := [Event.LockRead, Event.read, Event.UnlockRead] }

/-- The handler `handleReferences`: encodes `robotStore.Refs`; it calls none of the
lock methods. -/
def handleReferences (rs : RobotStore) : Outcome :=
  { store := rs, status := 200, body := Body.refs rs.Refs, trace := [Event.read] }

/-- The handler `handleReferencesUpdate`; `method` is the request method and
`decoded` the result of decoding the body into a `ReferenceValues`. -/
def handleReferencesUpdate (rs : RobotStore) (method : String)
    (decoded : Option ReferenceValues) : Outcome :=
  if method ≠ "POST" then
    { store := rs, status := 405, body := Body.error "Method not allowed", trace := [] }
  else
    match decoded with
    | none =>
      { store := rs, status := 400, body := Body.error "Invalid request body"
        trace := [Event.Lock, Event.Unlock] }
    | some newRefs =>
      { store := UpdateReferenceValues rs newRefs
        status := 200
        body := Body.refs (UpdateReferenceValues rs newRefs).Refs
        trace := [Event.Lock, Event.write, Event.read, Event.Unlock] }

/-- The handler `createRobot`; `decoded` is the result of decoding the body into a
`Robot`, which happens before the lock is taken. -/
def createRobot (rs : RobotStore) (decoded : Option Robot) : Outcome :=
  match decoded with
  | none => { store := rs, status := 400, body := Body.error "Invalid request body", trace := [] }
  | some robot =>
    if ExistsRobot rs robot.Code then
      { store := rs, status := 409, body := Body.error "Robot code already exists"
        trace := [Event.Lock, Event.read, Event.Unlock] }
    else
      match (AddRobot rs robot).2 with
      | some err =>
        { store := (AddRobot rs robot).1, status := 400, body := Body.error err.Error
          trace := [Event.Lock, Event.read, Event.write, Event.Unlock] }
      | none =>
        { store := (AddRobot rs robot).1, status := 201, body := Body.robot robot
          trace := [Event.Lock, Event.read, Event.write, Event.Unlock] }

/-- The handler `getRobotByCode`. -/
def getRobotByCode (rs : RobotStore) (code : String) : Outcome :=
  if (GetRobot rs code).2 = false then
    { store := rs, status := 404, body := Body.error "Robot not found"
      trace := [Event.LockRead, Event.read, Event.UnlockRead] }
  else
    { store := rs, status := 200, body := Body.robot (GetRobot rs code).1
      trace := [Event.LockRead, Event.read, Event.UnlockRead] }

/-- The handler `updateRobot`; `code` comes from the path and `decoded` is the
result of decoding the body into a `Robot`, which happens after the existence
check. The decoded record gets `code` as its `Code` before `AddRobot` sees it. -/
def updateRobot (rs : RobotStore) (code : String) (decoded : Option Robot) : Outcome :=
  if ExistsRobot rs code = false then
    { store := rs, status := 404, body := Body.error "Robot not found"
      trace := [Event.Lock, Event.read, Event.Unlock] }
  else
    match decoded with
    | none =>
      { store := rs, status := 400, body := Body.error "Invalid request body"
        trace := [Event.Lock, Event.read, Event.Unlock] }
    | some body =>
      match (AddRobot rs { body with Code := code }).2 with
      | some err =>
        { store := (AddRobot rs { body with Code := code }).1, status := 400
          body := Body.error err.Error
          trace := [Event.Lock, Event.read, Event.write, Event.Unlock] }
      | none =>
        { store := (AddRobot rs { body with Code := code }).1, status := 200
          body := Body.robot { body with Code := code }
          trace := [Event.Lock, Event.read, Event.write, Event.Unlock] }

/-- The handler `deleteRobot`. -/
def deleteRobot (rs : RobotStore) (code : String) : Outcome :=
  if ExistsRobot rs code = false then
    { store := rs, status := 404, body := Body.error "Robot not found"
      trace := [Event.Lock, Event.read, Event.Unlock] }
  else
    { store := DeleteRobot rs code, status := 204, body := Body.empty
      trace := [Event.Lock, Event.read, Event.write, Event.Unlock] }

/-- The loop of `loadInitialData` over the decoded seed records `data.Robots`:
`AddRobot` on each in order, its error dropped. -/
def loadInitialData (rs : RobotStore) : List Robot → RobotStore
  | [] => rs
  | robot :: rest => loadInitialData (AddRobot rs robot).1 rest

/-! ### Specification side -/

/-- Specification side of the listing: the filter of `GET /robots` as the
interface describes it: exact model match unless the model query is empty, and
every comma-separated item of the tech query among the techs of the record unless
the tech query is empty. -/
def matchesQuery (m q : String) (r : Robot) : Prop :=
  (m = "" ∨ r.Model = m) ∧ (q = "" ∨ ∀ t ∈ stringsSplit q ',', t ∈ r.Tech)

instance (m q : String) (r : Robot) : Decidable (matchesQuery m q r) := by
  unfold matchesQuery
  infer_instance

/-- How the running handler holds the lock of the store. -/
inductive Held where
  | free
  | shared
  | exclusive
deriving DecidableEq

/-- Specification side of the lock discipline, checked along a trace from the
given holding state; `acquired` tells whether the lock has been taken before. The
lock is taken only when free and not taken before, released only in the mode
held, every read happens with the lock held, every write with it held
exclusively, and the trace ends with the lock free. -/
def disciplinedFrom : Held → Bool → List Event → Bool
  | held, _, [] => decide (held = Held.free)
  | Held.free, false, Event.LockRead :: rest => disciplinedFrom Held.shared true rest
  | Held.free, false, Event.Lock :: rest => disciplinedFrom Held.exclusive true rest
  | Held.shared, acquired, Event.UnlockRead :: rest => disciplinedFrom Held.free acquired rest
  | Held.exclusive, acquired, Event.Unlock :: rest => disciplinedFrom Held.free acquired rest
  | Held.shared, acquired, Event.read :: rest => disciplinedFrom Held.shared acquired rest
  | Held.exclusive, acquired, Event.read :: rest => disciplinedFrom Held.exclusive acquired rest
  | Held.exclusive, acquired, Event.write :: rest =>
    disciplinedFrom Held.exclusive acquired rest
  | _, _, _ :: _ => false

/-- Specification side of the lock discipline for the trace of a whole handler. -/
def disciplined (trace : List Event) : Bool :=
  disciplinedFrom Held.free false trace

/-- Specification side of the error message: `v` occurs in `msg` as a contiguous
piece. -/
def occursIn (v msg : String) : Prop :=
  ∃ pre post : String, msg = pre ++ v ++ post

/-! ### Sample data -/

/-- Sample record: the first upsert of the R1 scenario. -/
def r1Car : Robot :=
  { Code := "R1", Name := "Arm", Description := "", Model := "car", Tech := ["AI"],
    Status := "active" }

/-- Sample record: R1 again, with a model outside the default catalog. -/
def r1Spaceship : Robot :=
  { Code := "R1", Name := "Arm", Description := "", Model := "spaceship", Tech := ["AI"],
    Status := "active" }

/-- Sample record: a second, valid robot. -/
def r2Humanoid : Robot :=
  { Code := "R2", Name := "Walker", Description := "biped", Model := "humanoid",
    Tech := ["robot", "AI"], Status := "progress" }

/-- Sample record: a valid replacement for R1 differing in every other field. -/
def r1Cyborg : Robot :=
  { Code := "R1", Name := "Arm II", Description := "second arm", Model := "transformation",
    Tech := ["cyborg"], Status := "inactive" }

/-- Sample record: valid only once `bike` and `drone` have been merged in. -/
def r3Bike : Robot :=
  { Code := "R3", Name := "Courier", Description := "", Model := "bike",
    Tech := ["drone", "AI"], Status := "active" }

/-! ## Helper lemmas -/

theorem contains_iff (l : List String) (v : String) : contains l v = true ↔ v ∈ l := by
  induction l with
  | nil => simp [contains]
  | cons item rest ih =>
    by_cases h : item = v
    · simp [contains, h]
    · have h2 : ¬ v = item := fun e => h e.symm
      simp [contains, h, h2, ih]

theorem contains_eq_false_iff (l : List String) (v : String) :
    contains l v = false ↔ v ∉ l := by
  rw [← contains_iff l v]; simp

theorem firstInvalidTech_eq_none (techs l : List String) :
    firstInvalidTech techs l = none ↔ ∀ t ∈ l, t ∈ techs := by
  induction l with
  | nil => simp [firstInvalidTech]
  | cons tech rest ih =>
    by_cases h : tech ∈ techs
    · simp [firstInvalidTech, (contains_iff techs tech).2 h, ih, h]
    · simp [firstInvalidTech, (contains_eq_false_iff techs tech).2 h, h]

theorem firstInvalidTech_first (techs pre post : List String) (t : String)
    (hpre : ∀ x ∈ pre, x ∈ techs) (ht : t ∉ techs) :
    firstInvalidTech techs (pre ++ t :: post) = some t := by
  induction pre with
  | nil => simp [firstInvalidTech, (contains_eq_false_iff techs t).2 ht]
  | cons x xs ih =>
    have hx : x ∈ techs := hpre x (List.mem_cons_self x xs)
    have hxs : ∀ y ∈ xs, y ∈ techs := fun y hy => hpre y (List.mem_cons_of_mem x hy)
    simp [firstInvalidTech, (contains_iff techs x).2 hx, ih hxs]

theorem firstInvalidTech_isSome (techs l : List String) (h : ∃ t ∈ l, t ∉ techs) :
    ∃ t, firstInvalidTech techs l = some t := by
  cases hc : firstInvalidTech techs l with
  | some t => exact ⟨t, rfl⟩
  | none =>
    obtain ⟨t, htl, hnt⟩ := h
    exact absurd ((firstInvalidTech_eq_none techs l).1 hc t htl) hnt

theorem AddRobot_ok_iff (rs : RobotStore) (r : Robot) :
    (AddRobot rs r).2 = none ↔
      r.Code ≠ "" ∧ r.Model ∈ rs.Refs.Models ∧ (∀ t ∈ r.Tech, t ∈ rs.Refs.Techs) ∧
        r.Status ∈ rs.Refs.Status ∧ r.Name ≠ "" := by
  unfold AddRobot
  by_cases hc : r.Code = ""
  · simp [hc]
  by_cases hm : r.Model ∈ rs.Refs.Models
  swap
  · simp [hc, hm, (contains_eq_false_iff _ _).2 hm]
  cases ht : firstInvalidTech rs.Refs.Techs r.Tech with
  | some t =>
    have hne : ¬ ∀ t ∈ r.Tech, t ∈ rs.Refs.Techs := fun hall => by
      rw [(firstInvalidTech_eq_none _ _).2 hall] at ht; cases ht
    simp only [hc, (contains_iff _ _).2 hm, if_false, Bool.not_true]
    simp [hne]
  | none =>
    have hall := (firstInvalidTech_eq_none _ _).1 ht
    by_cases hs : r.Status ∈ rs.Refs.Status
    swap
    · simp [hc, hm, (contains_iff _ _).2 hm, (contains_eq_false_iff _ _).2 hs, hs]
    by_cases hn : r.Name = ""
    · simp [hc, (contains_iff _ _).2 hm, (contains_iff _ _).2 hs, hn]
    · simp [hc, (contains_iff _ _).2 hm, (contains_iff _ _).2 hs, hn, hm, hs]
      exact hall

theorem AddRobot_ok_store (rs : RobotStore) (r : Robot) (h : (AddRobot rs r).2 = none) :
    (AddRobot rs r).1 = { rs with Robots := rs.Robots.insert r.Code r } := by
  obtain ⟨hc, hm, ht, hs, hn⟩ := (AddRobot_ok_iff rs r).1 h
  unfold AddRobot
  simp [hc, (contains_iff _ _).2 hm, (contains_iff _ _).2 hs, hn,
    (firstInvalidTech_eq_none _ _).2 ht]

theorem AddRobot_cases (rs : RobotStore) (r : Robot) :
    (∃ e, AddRobot rs r = (rs, some e)) ∨
      AddRobot rs r = ({ rs with Robots := rs.Robots.insert r.Code r }, none) := by
  unfold AddRobot
  by_cases hc : r.Code = ""
  · simp [hc]
  by_cases hm : contains rs.Refs.Models r.Model = true
  swap
  · simp [hc, hm]
  cases ht : firstInvalidTech rs.Refs.Techs r.Tech with
  | some t => simp [hc, hm]
  | none =>
    by_cases hs : contains rs.Refs.Status r.Status = true
    swap
    · simp [hc, hm, hs]
    by_cases hn : r.Name = ""
    · simp [hc, hm, hs, hn]
    · simp [hc, hm, hs, hn]

theorem AddRobot_err_store (rs : RobotStore) (r : Robot) (h : (AddRobot rs r).2 ≠ none) :
    (AddRobot rs r).1 = rs := by
  rcases AddRobot_cases rs r with ⟨e, he⟩ | hok
  · rw [he]
  · rw [hok] at h; exact absurd rfl h

theorem erase_absent (m : RobotMap) (c : String) (h : m.lookup c = none) : m.erase c = m := by
  apply AList.ext
  have hc : c ∉ m.entries.keys := AList.lookup_eq_none.1 h
  exact List.kerase_of_not_mem_keys hc

theorem ExistsRobot_eq_false_iff (rs : RobotStore) (c : String) :
    ExistsRobot rs c = false ↔ rs.Robots.lookup c = none := by
  unfold ExistsRobot
  cases rs.Robots.lookup c <;> simp

theorem mem_firstOccurrences (l : List String) (v : String) :
    v ∈ firstOccurrences l ↔ v ∈ l := by
  induction l with
  | nil => simp [firstOccurrences]
  | cons x xs ih =>
    by_cases h : v = x
    · simp [firstOccurrences, h]
    · simp [firstOccurrences, h, ih]

theorem nodup_firstOccurrences (l : List String) : (firstOccurrences l).Nodup := by
  induction l with
  | nil => simp [firstOccurrences]
  | cons x xs ih =>
    simp only [firstOccurrences, List.nodup_cons]
    exact ⟨by simp, ih.filter _⟩

theorem firstOccurrences_filter (p : String → Bool) (l : List String) :
    firstOccurrences (l.filter p) = (firstOccurrences l).filter p := by
  induction l with
  | nil => simp [firstOccurrences]
  | cons x xs ih =>
    by_cases hp : p x = true
    · simp only [List.filter_cons_of_pos hp, firstOccurrences, ih, List.filter_filter]
      congr 1
      apply List.filter_congr
      intro w _
      exact Bool.and_comm _ _
    · simp only [List.filter_cons_of_neg hp, firstOccurrences, ih, List.filter_filter]
      apply List.filter_congr
      intro w _
      by_cases hw : w = x
      · subst hw; simp [hp]
      · simp [hw]

theorem appendMissing_eq_mergeSpec (cur new : List String) :
    appendMissing cur new = mergeSpec cur new := by
  induction new generalizing cur with
  | nil => simp [appendMissing, mergeSpec, firstOccurrences]
  | cons v rest ih =>
    by_cases hv : v ∈ cur
    · simp only [appendMissing, (contains_iff cur v).2 hv, Bool.not_true, ih]
      simp [mergeSpec, hv]
    · simp only [appendMissing, (contains_eq_false_iff cur v).2 hv, Bool.not_false, if_true, ih]
      have hf : rest.filter (fun w => decide (w ∉ cur ++ [v]))
          = (rest.filter (fun w => decide (w ∉ cur))).filter (fun w => decide (w ≠ v)) := by
        rw [List.filter_filter]
        apply List.filter_congr
        intro w _
        simp [not_or, and_comm]
      have h1 : (firstOccurrences (v :: rest)).filter (fun w => decide (w ∉ cur))
          = v :: ((firstOccurrences rest).filter (fun w => decide (w ≠ v))).filter
              (fun w => decide (w ∉ cur)) := by
        rw [firstOccurrences, List.filter_cons_of_pos (by simpa using hv)]
      have h2 : ((firstOccurrences rest).filter (fun w => decide (w ∉ cur))).filter
            (fun w => decide (w ≠ v))
          = ((firstOccurrences rest).filter (fun w => decide (w ≠ v))).filter
              (fun w => decide (w ∉ cur)) := by
        rw [List.filter_filter, List.filter_filter]
        apply List.filter_congr
        intro w _
        exact Bool.and_comm _ _
      rw [mergeSpec, mergeSpec, hf]
      simp only [firstOccurrences_filter]
      rw [h1, h2, List.append_assoc, List.singleton_append]

theorem mem_appendMissing (cur new : List String) (v : String) :
    v ∈ appendMissing cur new ↔ v ∈ cur ∨ v ∈ new := by
  rw [appendMissing_eq_mergeSpec, mergeSpec, List.mem_append, mem_firstOccurrences,
    List.mem_filter]
  by_cases h : v ∈ cur <;> simp [h]

theorem appendMissing_extends (cur new : List String) : cur <+: appendMissing cur new := by
  rw [appendMissing_eq_mergeSpec]
  exact ⟨_, rfl⟩

theorem nodup_appendMissing (cur new : List String) (h : cur.Nodup) :
    (appendMissing cur new).Nodup := by
  rw [appendMissing_eq_mergeSpec, mergeSpec]
  refine List.Nodup.append h (nodup_firstOccurrences _) ?_
  intro v hcur hnew
  rw [mem_firstOccurrences, List.mem_filter] at hnew
  simpa [hcur] using hnew.2

theorem appendMissing_of_subset (cur new : List String) (h : ∀ v ∈ new, v ∈ cur) :
    appendMissing cur new = cur := by
  induction new with
  | nil => rfl
  | cons v rest ih =>
    have hv : v ∈ cur := h v (List.mem_cons_self v rest)
    simp only [appendMissing, (contains_iff cur v).2 hv, Bool.not_true]
    exact ih (fun w hw => h w (List.mem_cons_of_mem v hw))

theorem appendMissing_idem (cur new : List String) :
    appendMissing (appendMissing cur new) new = appendMissing cur new :=
  appendMissing_of_subset _ _ (fun v hv => (mem_appendMissing cur new v).2 (Or.inr hv))

theorem AddRobot_Refs (rs : RobotStore) (r : Robot) : (AddRobot rs r).1.Refs = rs.Refs := by
  rcases AddRobot_cases rs r with ⟨e, he⟩ | hok
  · rw [he]
  · rw [hok]

theorem step_Refs_extends (rs : RobotStore) (c : Call) :
    rs.Refs.Models <+: (step rs c).Refs.Models ∧ rs.Refs.Techs <+: (step rs c).Refs.Techs ∧
      rs.Refs.Status <+: (step rs c).Refs.Status := by
  cases c with
  | addRobot r =>
    show _ <+: (AddRobot rs r).1.Refs.Models ∧ _ <+: (AddRobot rs r).1.Refs.Techs ∧
      _ <+: (AddRobot rs r).1.Refs.Status
    rw [AddRobot_Refs]
    exact ⟨List.prefix_refl _, List.prefix_refl _, List.prefix_refl _⟩
  | deleteRobot code => exact ⟨List.prefix_refl _, List.prefix_refl _, List.prefix_refl _⟩
  | updateReferenceValues n =>
    exact ⟨appendMissing_extends _ _, appendMissing_extends _ _, appendMissing_extends _ _⟩

/-- An invariant of the initial store kept by every call holds after any finite
sequence of calls. -/
theorem runCalls_invariant (P : RobotStore → Prop) (hstep : ∀ s c, P s → P (step s c))
    (calls : List Call) (s : RobotStore) (hs : P s) : P (runCalls s calls) := by
  induction calls generalizing s with
  | nil => exact hs
  | cons c cs ih => exact ih (step s c) (hstep s c hs)

theorem step_keeps_records_valid (s : RobotStore) (c : Call)
    (h : ∀ k r, s.Robots.lookup k = some r →
      r.Code ≠ "" ∧ r.Model ∈ s.Refs.Models ∧ (∀ t ∈ r.Tech, t ∈ s.Refs.Techs) ∧
        r.Status ∈ s.Refs.Status ∧ r.Name ≠ "") :
    ∀ k r, (step s c).Robots.lookup k = some r →
      r.Code ≠ "" ∧ r.Model ∈ (step s c).Refs.Models ∧
        (∀ t ∈ r.Tech, t ∈ (step s c).Refs.Techs) ∧
        r.Status ∈ (step s c).Refs.Status ∧ r.Name ≠ "" := by
  intro k r hk
  cases c with
  | addRobot x =>
    change (AddRobot s x).1.Robots.lookup k = some r at hk
    show _ ∧ _ ∈ (AddRobot s x).1.Refs.Models ∧ (∀ t ∈ r.Tech, t ∈ (AddRobot s x).1.Refs.Techs) ∧
      _ ∈ (AddRobot s x).1.Refs.Status ∧ _
    rw [AddRobot_Refs]
    by_cases herr : (AddRobot s x).2 = none
    · rw [AddRobot_ok_store s x herr] at hk
      by_cases hkx : k = x.Code
      · subst hkx
        rw [AList.lookup_insert] at hk
        rw [← Option.some.inj hk]
        exact (AddRobot_ok_iff s x).1 herr
      · rw [AList.lookup_insert_ne hkx] at hk
        exact h k r hk
    · rw [AddRobot_err_store s x herr] at hk
      exact h k r hk
  | deleteRobot code =>
    change (s.Robots.erase code).lookup k = some r at hk
    by_cases hkc : k = code
    · subst hkc
      rw [AList.lookup_erase] at hk
      cases hk
    · rw [AList.lookup_erase_ne hkc] at hk
      exact h k r hk
  | updateReferenceValues n =>
    change s.Robots.lookup k = some r at hk
    obtain ⟨h1, h2, h3, h4, h5⟩ := h k r hk
    exact ⟨h1, (mem_appendMissing _ _ _).2 (Or.inl h2),
      fun t ht => (mem_appendMissing _ _ _).2 (Or.inl (h3 t ht)),
      (mem_appendMissing _ _ _).2 (Or.inl h4), h5⟩

theorem step_keeps_key_is_code (s : RobotStore) (c : Call)
    (h : ∀ k r, s.Robots.lookup k = some r → r.Code = k) :
    ∀ k r, (step s c).Robots.lookup k = some r → r.Code = k := by
  intro k r hk
  cases c with
  | addRobot x =>
    change (AddRobot s x).1.Robots.lookup k = some r at hk
    by_cases herr : (AddRobot s x).2 = none
    · rw [AddRobot_ok_store s x herr] at hk
      by_cases hkx : k = x.Code
      · subst hkx
        rw [AList.lookup_insert] at hk
        rw [← Option.some.inj hk]
      · rw [AList.lookup_insert_ne hkx] at hk
        exact h k r hk
    · rw [AddRobot_err_store s x herr] at hk
      exact h k r hk
  | deleteRobot code =>
    change (s.Robots.erase code).lookup k = some r at hk
    by_cases hkc : k = code
    · subst hkc
      rw [AList.lookup_erase] at hk
      cases hk
    · rw [AList.lookup_erase_ne hkc] at hk
      exact h k r hk
  | updateReferenceValues n => exact h k r hk

theorem step_keeps_catalog_invariant (s : RobotStore) (c : Call)
    (h : (s.Refs.Models.Nodup ∧ s.Refs.Techs.Nodup ∧ s.Refs.Status.Nodup) ∧
      NewRobotStore.Refs.Models <+: s.Refs.Models ∧ NewRobotStore.Refs.Techs <+: s.Refs.Techs ∧
        NewRobotStore.Refs.Status <+: s.Refs.Status) :
    ((step s c).Refs.Models.Nodup ∧ (step s c).Refs.Techs.Nodup ∧
        (step s c).Refs.Status.Nodup) ∧
      NewRobotStore.Refs.Models <+: (step s c).Refs.Models ∧
        NewRobotStore.Refs.Techs <+: (step s c).Refs.Techs ∧
        NewRobotStore.Refs.Status <+: (step s c).Refs.Status := by
  obtain ⟨⟨n1, n2, n3⟩, p1, p2, p3⟩ := h
  obtain ⟨e1, e2, e3⟩ := step_Refs_extends s c
  refine ⟨?_, p1.trans e1, p2.trans e2, p3.trans e3⟩
  cases c with
  | addRobot x =>
    show (AddRobot s x).1.Refs.Models.Nodup ∧ (AddRobot s x).1.Refs.Techs.Nodup ∧
      (AddRobot s x).1.Refs.Status.Nodup
    rw [AddRobot_Refs]
    exact ⟨n1, n2, n3⟩
  | deleteRobot code => exact ⟨n1, n2, n3⟩
  | updateReferenceValues n =>
    exact ⟨nodup_appendMissing _ _ n1, nodup_appendMissing _ _ n2, nodup_appendMissing _ _ n3⟩

/-! ## The write path: `AddRobot` -/

/-- C1: `AddRobot` runs its checks in the fixed order code non-empty, model in
`Refs.Models`, every tech in `Refs.Techs` (in list order), status in `Refs.Status`,
name non-empty; the error it returns carries the field of the first check that
fails (for `Tech`, the message names the first rejected entry of the list), and it
returns no error exactly when all five checks pass. -/
theorem AddRobot_reports_first_failing_check (rs : RobotStore) (r : Robot) :
    (r.Code = "" → (AddRobot rs r).2.map ValidationError.Field = some "Code") ∧
    (r.Code ≠ "" → r.Model ∉ rs.Refs.Models →
      (AddRobot rs r).2.map ValidationError.Field = some "Model") ∧
    (r.Code ≠ "" → r.Model ∈ rs.Refs.Models → (∃ t ∈ r.Tech, t ∉ rs.Refs.Techs) →
      (AddRobot rs r).2.map ValidationError.Field = some "Tech") ∧
    (∀ pre t post, r.Code ≠ "" → r.Model ∈ rs.Refs.Models → r.Tech = pre ++ t :: post →
      (∀ x ∈ pre, x ∈ rs.Refs.Techs) → t ∉ rs.Refs.Techs →
      (AddRobot rs r).2 = some
        { Field := "Tech"
          Message := "Invalid tech: " ++ t ++ ". Allowed techs: " ++ fmtSlice rs.Refs.Techs }) ∧
    (r.Code ≠ "" → r.Model ∈ rs.Refs.Models → (∀ t ∈ r.Tech, t ∈ rs.Refs.Techs) →
      r.Status ∉ rs.Refs.Status →
      (AddRobot rs r).2.map ValidationError.Field = some "Status") ∧
    (r.Code ≠ "" → r.Model ∈ rs.Refs.Models → (∀ t ∈ r.Tech, t ∈ rs.Refs.Techs) →
      r.Status ∈ rs.Refs.Status → r.Name = "" →
      (AddRobot rs r).2.map ValidationError.Field = some "Name") ∧
    ((AddRobot rs r).2 = none ↔
      r.Code ≠ "" ∧ r.Model ∈ rs.Refs.Models ∧ (∀ t ∈ r.Tech, t ∈ rs.Refs.Techs) ∧
        r.Status ∈ rs.Refs.Status ∧ r.Name ≠ "") := by
  refine ⟨?_, ?_, ?_, ?_, ?_, ?_, AddRobot_ok_iff rs r⟩
  · intro hc
    simp [AddRobot, hc]
  · intro hc hm
    simp [AddRobot, hc, (contains_eq_false_iff _ _).2 hm]
  · intro hc hm ht
    obtain ⟨t, hts⟩ := firstInvalidTech_isSome _ _ ht
    simp [AddRobot, hc, (contains_iff _ _).2 hm, hts]
  · intro pre t post hc hm hsplit hpre ht
    have hts := firstInvalidTech_first rs.Refs.Techs pre post t hpre ht
    rw [← hsplit] at hts
    simp [AddRobot, hc, (contains_iff _ _).2 hm, hts]
  · intro hc hm ht hs
    simp [AddRobot, hc, (contains_iff _ _).2 hm, (firstInvalidTech_eq_none _ _).2 ht,
      (contains_eq_false_iff _ _).2 hs]
  · intro hc hm ht hs hn
    simp [AddRobot, hc, (contains_iff _ _).2 hm, (firstInvalidTech_eq_none _ _).2 ht,
      (contains_iff _ _).2 hs, hn]

/-- Instance of C1 on the default store: a record failing every check is reported
on `Code`; one failing all but the code check on `Model`; an empty tech list and a
tech list repeating a valid entry are accepted. -/
theorem AddRobot_reports_first_failing_check_witness :
    (AddRobot NewRobotStore
        { Code := "", Name := "", Description := "", Model := "x", Tech := ["y"],
          Status := "z" }).2.map ValidationError.Field = some "Code" ∧
    (AddRobot NewRobotStore
        { Code := "R9", Name := "", Description := "", Model := "x", Tech := ["y"],
          Status := "z" }).2.map ValidationError.Field = some "Model" ∧
    (AddRobot NewRobotStore { r1Car with Tech := [] }).2 = none ∧
    (AddRobot NewRobotStore { r1Car with Tech := ["AI", "AI"] }).2 = none :=
  ⟨(AddRobot_reports_first_failing_check NewRobotStore _).1 rfl,
   (AddRobot_reports_first_failing_check NewRobotStore _).2.1 (by decide) (by decide),
   (AddRobot_reports_first_failing_check NewRobotStore _).2.2.2.2.2.2.2
     ⟨by decide, by decide, by decide, by decide, by decide⟩,
   (AddRobot_reports_first_failing_check NewRobotStore _).2.2.2.2.2.2.2
     ⟨by decide, by decide, by decide, by decide, by decide⟩⟩

/-- C2: `AddRobot` returns an error exactly when the code is empty, the model is
not in `Refs.Models`, some tech is not in `Refs.Techs`, the status is not in
`Refs.Status` or the name is empty; and whenever it returns an error the store is
unchanged: the `Robots` mapping and the `Refs` catalog are those before the call. -/
theorem AddRobot_error_leaves_store_unchanged (rs : RobotStore) (r : Robot) :
    ((AddRobot rs r).2 ≠ none ↔
      (r.Code = "" ∨ r.Model ∉ rs.Refs.Models ∨ (∃ t ∈ r.Tech, t ∉ rs.Refs.Techs) ∨
        r.Status ∉ rs.Refs.Status ∨ r.Name = "")) ∧
    ((AddRobot rs r).2 ≠ none →
      (AddRobot rs r).1 = rs ∧ (AddRobot rs r).1.Robots = rs.Robots ∧
        (AddRobot rs r).1.Refs = rs.Refs) := by
  constructor
  · rw [Ne, AddRobot_ok_iff]
    constructor
    · intro h
      by_contra hcon
      push_neg at hcon
      exact h ⟨hcon.1, hcon.2.1, hcon.2.2.1, hcon.2.2.2.1, hcon.2.2.2.2⟩
    · rintro (h | h | ⟨t, ht, hnt⟩ | h | h) ⟨hc, hm, htech, hs, hn⟩
      · exact hc h
      · exact h hm
      · exact hnt (htech t ht)
      · exact h hs
      · exact hn h
  · intro h
    have hs := AddRobot_err_store rs r h
    exact ⟨hs, by rw [hs], by rw [hs]⟩

/-- Scenario of C2: on the empty default store the upsert of R1 with model `car`
succeeds; the upsert of R1 with model `spaceship` then fails on field `Model`, and
`GetRobot "R1"` still returns the record with model `car`. -/
theorem AddRobot_error_leaves_store_unchanged_witness :
    (AddRobot NewRobotStore r1Car).2 = none ∧
    (AddRobot (AddRobot NewRobotStore r1Car).1 r1Spaceship).2.map ValidationError.Field
      = some "Model" ∧
    GetRobot (AddRobot (AddRobot NewRobotStore r1Car).1 r1Spaceship).1 "R1" = (r1Car, true) ∧
    (GetRobot (AddRobot (AddRobot NewRobotStore r1Car).1 r1Spaceship).1 "R1").1.Model = "car" :=
  have h := ((AddRobot_error_leaves_store_unchanged (AddRobot NewRobotStore r1Car).1
    r1Spaceship).2 (by decide)).1
  ⟨by decide, by decide, by rw [h]; decide, by rw [h]; decide⟩

/-- C3: when `AddRobot` succeeds, the `Robots` mapping afterwards maps the code of
the record to exactly that record (inserted if absent, replaced otherwise), every
other code maps to what it mapped to before, and `Refs` is unchanged. -/
theorem AddRobot_success_upserts (rs : RobotStore) (r : Robot)
    (h : (AddRobot rs r).2 = none) :
    (AddRobot rs r).1.Robots.lookup r.Code = some r ∧
    (∀ c : String, c ≠ r.Code →
      (AddRobot rs r).1.Robots.lookup c = rs.Robots.lookup c) ∧
    (AddRobot rs r).1.Refs = rs.Refs := by
  rw [AddRobot_ok_store rs r h]
  refine ⟨AList.lookup_insert _, ?_, rfl⟩
  intro c hc
  exact AList.lookup_insert_ne hc

/-- Instance of C3: replacing R1 in a store that holds R1 and R2. -/
theorem AddRobot_success_upserts_witness :
    (AddRobot (AddRobot (AddRobot NewRobotStore r1Car).1 r2Humanoid).1 r1Cyborg).2 = none ∧
    ((AddRobot (AddRobot (AddRobot NewRobotStore r1Car).1 r2Humanoid).1 r1Cyborg).1.Robots.lookup
        r1Cyborg.Code = some r1Cyborg ∧
      (∀ c : String, c ≠ r1Cyborg.Code →
        (AddRobot (AddRobot (AddRobot NewRobotStore r1Car).1 r2Humanoid).1
            r1Cyborg).1.Robots.lookup c
          = (AddRobot (AddRobot NewRobotStore r1Car).1 r2Humanoid).1.Robots.lookup c) ∧
      (AddRobot (AddRobot (AddRobot NewRobotStore r1Car).1 r2Humanoid).1 r1Cyborg).1.Refs
        = (AddRobot (AddRobot NewRobotStore r1Car).1 r2Humanoid).1.Refs) :=
  ⟨by decide,
   AddRobot_success_upserts (AddRobot (AddRobot NewRobotStore r1Car).1 r2Humanoid).1 r1Cyborg
     (by decide)⟩

/-- C4: round trip. When `AddRobot` succeeds, `GetRobot` on the code of the record
returns that record and `true`, field by field, and `ExistsRobot` is `true`. -/
theorem AddRobot_then_GetRobot (rs : RobotStore) (r : Robot)
    (h : (AddRobot rs r).2 = none) :
    GetRobot (AddRobot rs r).1 r.Code = (r, true) ∧
    ((GetRobot (AddRobot rs r).1 r.Code).1.Code = r.Code ∧
      (GetRobot (AddRobot rs r).1 r.Code).1.Name = r.Name ∧
      (GetRobot (AddRobot rs r).1 r.Code).1.Description = r.Description ∧
      (GetRobot (AddRobot rs r).1 r.Code).1.Model = r.Model ∧
      (GetRobot (AddRobot rs r).1 r.Code).1.Tech = r.Tech ∧
      (GetRobot (AddRobot rs r).1 r.Code).1.Status = r.Status) ∧
    ExistsRobot (AddRobot rs r).1 r.Code = true := by
  have hl : (AddRobot rs r).1.Robots.lookup r.Code = some r := by
    rw [AddRobot_ok_store rs r h]; exact AList.lookup_insert _
  have hg : GetRobot (AddRobot rs r).1 r.Code = (r, true) := by
    unfold GetRobot; rw [hl]
  refine ⟨hg, ?_, ?_⟩
  · rw [hg]; exact ⟨rfl, rfl, rfl, rfl, rfl, rfl⟩
  · unfold ExistsRobot; rw [hl]

/-- Instance of C4: R1 written to the default store and read back. -/
theorem AddRobot_then_GetRobot_witness :
    (AddRobot NewRobotStore r1Car).2 = none ∧
    GetRobot (AddRobot NewRobotStore r1Car).1 "R1" = (r1Car, true) ∧
    ExistsRobot (AddRobot NewRobotStore r1Car).1 "R1" = true :=
  ⟨by decide, (AddRobot_then_GetRobot NewRobotStore r1Car (by decide)).1,
   (AddRobot_then_GetRobot NewRobotStore r1Car (by decide)).2.2⟩

/-! ## `DeleteRobot` -/

/-- C5: after `DeleteRobot c`, `ExistsRobot c` is false and `GetRobot c` reports not
found; if `c` was absent the store (`Robots` and `Refs`) is unchanged; deleting `c`
twice gives the same store as deleting it once; every other code keeps its
record. -/
theorem DeleteRobot_removes_only_that_code (rs : RobotStore) (c : String) :
    ExistsRobot (DeleteRobot rs c) c = false ∧
    (GetRobot (DeleteRobot rs c) c).2 = false ∧
    (ExistsRobot rs c = false →
      DeleteRobot rs c = rs ∧ (DeleteRobot rs c).Robots = rs.Robots ∧
        (DeleteRobot rs c).Refs = rs.Refs) ∧
    DeleteRobot (DeleteRobot rs c) c = DeleteRobot rs c ∧
    (∀ d : String, d ≠ c →
      GetRobot (DeleteRobot rs c) d = GetRobot rs d ∧
        ExistsRobot (DeleteRobot rs c) d = ExistsRobot rs d) := by
  have hl : (DeleteRobot rs c).Robots.lookup c = none := AList.lookup_erase c rs.Robots
  refine ⟨?_, ?_, ?_, ?_, ?_⟩
  · unfold ExistsRobot; rw [hl]
  · unfold GetRobot; rw [hl]
  · intro h
    have hnone := (ExistsRobot_eq_false_iff rs c).1 h
    have he : DeleteRobot rs c = rs := by
      unfold DeleteRobot; rw [erase_absent rs.Robots c hnone]
    exact ⟨he, by rw [he], by rw [he]⟩
  · show ({ Robots := (DeleteRobot rs c).Robots.erase c, Refs := (DeleteRobot rs c).Refs }
      : RobotStore) = DeleteRobot rs c
    rw [erase_absent _ c hl]
  · intro d hd
    have hd2 : (DeleteRobot rs c).Robots.lookup d = rs.Robots.lookup d :=
      AList.lookup_erase_ne hd
    exact ⟨by unfold GetRobot; rw [hd2], by unfold ExistsRobot; rw [hd2]⟩

/-- Instance of C5: deleting R1 from a store holding R1 and R2 keeps R2, and
deleting the absent R3 changes nothing. -/
theorem DeleteRobot_removes_only_that_code_witness :
    ExistsRobot (DeleteRobot (AddRobot (AddRobot NewRobotStore r1Car).1 r2Humanoid).1 "R1") "R1"
      = false ∧
    GetRobot (DeleteRobot (AddRobot (AddRobot NewRobotStore r1Car).1 r2Humanoid).1 "R1") "R2"
      = (r2Humanoid, true) ∧
    DeleteRobot (AddRobot (AddRobot NewRobotStore r1Car).1 r2Humanoid).1 "R3"
      = (AddRobot (AddRobot NewRobotStore r1Car).1 r2Humanoid).1 :=
  ⟨(DeleteRobot_removes_only_that_code _ "R1").1,
   ((DeleteRobot_removes_only_that_code
      (AddRobot (AddRobot NewRobotStore r1Car).1 r2Humanoid).1 "R1").2.2.2.2 "R2"
      (by decide)).1.trans (by decide),
   ((DeleteRobot_removes_only_that_code
      (AddRobot (AddRobot NewRobotStore r1Car).1 r2Humanoid).1 "R3").2.2.1 (by decide)).1⟩

/-! ## The reference catalog: `UpdateReferenceValues` -/

/-- C6: `UpdateReferenceValues` sets each of the three vocabularies, independently,
to the old list followed by the values of the corresponding new list that are not
in the old list, each once, in order of first occurrence. Hence the old list is an
initial segment of the new one, and a value is in the new list iff it was in the
old list or is in the new values. -/
theorem UpdateReferenceValues_merges (rs : RobotStore) (newRefs : ReferenceValues) :
    ((UpdateReferenceValues rs newRefs).Refs.Models
        = mergeSpec rs.Refs.Models newRefs.Models ∧
      (UpdateReferenceValues rs newRefs).Refs.Techs
        = mergeSpec rs.Refs.Techs newRefs.Techs ∧
      (UpdateReferenceValues rs newRefs).Refs.Status
        = mergeSpec rs.Refs.Status newRefs.Status) ∧
    (rs.Refs.Models <+: (UpdateReferenceValues rs newRefs).Refs.Models ∧
      rs.Refs.Techs <+: (UpdateReferenceValues rs newRefs).Refs.Techs ∧
      rs.Refs.Status <+: (UpdateReferenceValues rs newRefs).Refs.Status) ∧
    (∀ v : String,
      (v ∈ (UpdateReferenceValues rs newRefs).Refs.Models
        ↔ v ∈ rs.Refs.Models ∨ v ∈ newRefs.Models) ∧
      (v ∈ (UpdateReferenceValues rs newRefs).Refs.Techs
        ↔ v ∈ rs.Refs.Techs ∨ v ∈ newRefs.Techs) ∧
      (v ∈ (UpdateReferenceValues rs newRefs).Refs.Status
        ↔ v ∈ rs.Refs.Status ∨ v ∈ newRefs.Status)) :=
  ⟨⟨appendMissing_eq_mergeSpec _ _, appendMissing_eq_mergeSpec _ _,
      appendMissing_eq_mergeSpec _ _⟩,
    ⟨appendMissing_extends _ _, appendMissing_extends _ _, appendMissing_extends _ _⟩,
    fun v => ⟨mem_appendMissing _ _ v, mem_appendMissing _ _ v, mem_appendMissing _ _ v⟩⟩

/-- Scenario of C6: the default techs merged with `[AI, drone]` give
`[AI, car, robot, cyborg, humanoid, drone]`; models and status stay as they were. -/
theorem UpdateReferenceValues_merges_witness :
    (UpdateReferenceValues NewRobotStore
        { Models := [], Techs := ["AI", "drone"], Status := [] }).Refs
      = { Models := ["car", "humanoid", "transformation"]
          Techs := ["AI", "car", "robot", "cyborg", "humanoid", "drone"]
          Status := ["progress", "active", "inactive"] } ∧
    (UpdateReferenceValues NewRobotStore
        { Models := [], Techs := ["AI", "drone"], Status := [] }).Refs.Techs
      = ["AI", "car", "robot", "cyborg", "humanoid", "drone"] :=
  ⟨by decide,
   (UpdateReferenceValues_merges NewRobotStore
      { Models := [], Techs := ["AI", "drone"], Status := [] }).1.2.1.trans (by decide)⟩

/-- C7: in every store reached from `NewRobotStore` by a finite sequence of
`AddRobot`, `DeleteRobot` and `UpdateReferenceValues` calls, no vocabulary holds a
string twice; every further call leaves each vocabulary an extension (so a
superset) of what it was; and the default values are still there, at the front. -/
theorem reachable_catalog_unique_and_growing (calls : List Call) :
    ((runCalls NewRobotStore calls).Refs.Models.Nodup ∧
      (runCalls NewRobotStore calls).Refs.Techs.Nodup ∧
      (runCalls NewRobotStore calls).Refs.Status.Nodup) ∧
    (∀ c : Call,
      ((runCalls NewRobotStore calls).Refs.Models
          <+: (step (runCalls NewRobotStore calls) c).Refs.Models ∧
        (runCalls NewRobotStore calls).Refs.Techs
          <+: (step (runCalls NewRobotStore calls) c).Refs.Techs ∧
        (runCalls NewRobotStore calls).Refs.Status
          <+: (step (runCalls NewRobotStore calls) c).Refs.Status) ∧
      (∀ v : String,
        (v ∈ (runCalls NewRobotStore calls).Refs.Models →
          v ∈ (step (runCalls NewRobotStore calls) c).Refs.Models) ∧
        (v ∈ (runCalls NewRobotStore calls).Refs.Techs →
          v ∈ (step (runCalls NewRobotStore calls) c).Refs.Techs) ∧
        (v ∈ (runCalls NewRobotStore calls).Refs.Status →
          v ∈ (step (runCalls NewRobotStore calls) c).Refs.Status))) ∧
    (["car", "humanoid", "transformation"] <+: (runCalls NewRobotStore calls).Refs.Models ∧
      ["AI", "car", "robot", "cyborg", "humanoid"]
        <+: (runCalls NewRobotStore calls).Refs.Techs ∧
      ["progress", "active", "inactive"] <+: (runCalls NewRobotStore calls).Refs.Status) ∧
    ((∀ v ∈ ["car", "humanoid", "transformation"],
        v ∈ (runCalls NewRobotStore calls).Refs.Models) ∧
      (∀ v ∈ ["AI", "car", "robot", "cyborg", "humanoid"],
        v ∈ (runCalls NewRobotStore calls).Refs.Techs) ∧
      (∀ v ∈ ["progress", "active", "inactive"],
        v ∈ (runCalls NewRobotStore calls).Refs.Status)) := by
  have hinv := runCalls_invariant
    (fun s => (s.Refs.Models.Nodup ∧ s.Refs.Techs.Nodup ∧ s.Refs.Status.Nodup) ∧
      NewRobotStore.Refs.Models <+: s.Refs.Models ∧ NewRobotStore.Refs.Techs <+: s.Refs.Techs ∧
        NewRobotStore.Refs.Status <+: s.Refs.Status)
    step_keeps_catalog_invariant calls NewRobotStore
    ⟨⟨by decide, by decide, by decide⟩, List.prefix_refl _, List.prefix_refl _,
      List.prefix_refl _⟩
  obtain ⟨hnodup, p1, p2, p3⟩ := hinv
  refine ⟨hnodup, ?_, ⟨p1, p2, p3⟩, fun v hv => p1.subset hv, fun v hv => p2.subset hv,
    fun v hv => p3.subset hv⟩
  intro c
  obtain ⟨e1, e2, e3⟩ := step_Refs_extends (runCalls NewRobotStore calls) c
  exact ⟨⟨e1, e2, e3⟩, fun v => ⟨fun hv => e1.subset hv, fun hv => e2.subset hv,
    fun hv => e3.subset hv⟩⟩

/-- Instance of C7: after a run whose catalog update repeats `bike` and re-submits
`car`, the models are the defaults followed by a single `bike`, without repeats. -/
theorem reachable_catalog_unique_and_growing_witness :
    (runCalls NewRobotStore
        [Call.addRobot r1Car,
         Call.updateReferenceValues
           { Models := ["bike", "car", "bike"], Techs := ["drone", "drone"], Status := [] },
         Call.deleteRobot "R1"]).Refs.Models
      = ["car", "humanoid", "transformation", "bike"] ∧
    (runCalls NewRobotStore
        [Call.addRobot r1Car,
         Call.updateReferenceValues
           { Models := ["bike", "car", "bike"], Techs := ["drone", "drone"], Status := [] },
         Call.deleteRobot "R1"]).Refs.Models.Nodup ∧
    (runCalls NewRobotStore
        [Call.addRobot r1Car,
         Call.updateReferenceValues
           { Models := ["bike", "car", "bike"], Techs := ["drone", "drone"], Status := [] },
         Call.deleteRobot "R1"]).Refs.Techs.Nodup :=
  ⟨by decide,
   (reachable_catalog_unique_and_growing
      [Call.addRobot r1Car,
       Call.updateReferenceValues
         { Models := ["bike", "car", "bike"], Techs := ["drone", "drone"], Status := [] },
       Call.deleteRobot "R1"]).1.1,
   (reachable_catalog_unique_and_growing
      [Call.addRobot r1Car,
       Call.updateReferenceValues
         { Models := ["bike", "car", "bike"], Techs := ["drone", "drone"], Status := [] },
       Call.deleteRobot "R1"]).1.2.1⟩

/-! ## Invariants of the stored records -/

/-- C8: in every store reached from `NewRobotStore` by a finite sequence of
`AddRobot`, `DeleteRobot` and `UpdateReferenceValues` calls, every stored record
has its model in the current `Refs.Models`, each of its techs in the current
`Refs.Techs`, its status in the current `Refs.Status`, and a non-empty code and
name. -/
theorem reachable_records_valid (calls : List Call) (k : String) (r : Robot)
    (h : (runCalls NewRobotStore calls).Robots.lookup k = some r) :
    r.Model ∈ (runCalls NewRobotStore calls).Refs.Models ∧
    (∀ t ∈ r.Tech, t ∈ (runCalls NewRobotStore calls).Refs.Techs) ∧
    r.Status ∈ (runCalls NewRobotStore calls).Refs.Status ∧
    r.Code ≠ "" ∧ r.Name ≠ "" := by
  have hinv := runCalls_invariant
    (fun s => ∀ k r, s.Robots.lookup k = some r →
      r.Code ≠ "" ∧ r.Model ∈ s.Refs.Models ∧ (∀ t ∈ r.Tech, t ∈ s.Refs.Techs) ∧
        r.Status ∈ s.Refs.Status ∧ r.Name ≠ "")
    step_keeps_records_valid calls NewRobotStore
    (fun k r hk => by rw [show NewRobotStore.Robots = ∅ from rfl, AList.lookup_empty] at hk; cases hk)
  obtain ⟨h1, h2, h3, h4, h5⟩ := hinv k r h
  exact ⟨h2, h3, h4, h1, h5⟩

/-- Instance of C8: a record written with the freshly merged model `bike` is still
valid after a later catalog update and an unrelated delete. -/
theorem reachable_records_valid_witness :
    (runCalls NewRobotStore
        [Call.updateReferenceValues { Models := ["bike"], Techs := ["drone"], Status := [] },
         Call.addRobot r3Bike, Call.addRobot r1Car,
         Call.updateReferenceValues { Models := ["boat"], Techs := [], Status := ["lost"] },
         Call.deleteRobot "R1"]).Robots.lookup "R3" = some r3Bike ∧
    (r3Bike.Model ∈ (runCalls NewRobotStore
        [Call.updateReferenceValues { Models := ["bike"], Techs := ["drone"], Status := [] },
         Call.addRobot r3Bike, Call.addRobot r1Car,
         Call.updateReferenceValues { Models := ["boat"], Techs := [], Status := ["lost"] },
         Call.deleteRobot "R1"]).Refs.Models ∧
      (∀ t ∈ r3Bike.Tech, t ∈ (runCalls NewRobotStore
        [Call.updateReferenceValues { Models := ["bike"], Techs := ["drone"], Status := [] },
         Call.addRobot r3Bike, Call.addRobot r1Car,
         Call.updateReferenceValues { Models := ["boat"], Techs := [], Status := ["lost"] },
         Call.deleteRobot "R1"]).Refs.Techs) ∧
      r3Bike.Status ∈ (runCalls NewRobotStore
        [Call.updateReferenceValues { Models := ["bike"], Techs := ["drone"], Status := [] },
         Call.addRobot r3Bike, Call.addRobot r1Car,
         Call.updateReferenceValues { Models := ["boat"], Techs := [], Status := ["lost"] },
         Call.deleteRobot "R1"]).Refs.Status ∧
      r3Bike.Code ≠ "" ∧ r3Bike.Name ≠ "") :=
  ⟨by decide, reachable_records_valid _ "R3" r3Bike (by decide)⟩

/-- C9: in every store reached from `NewRobotStore` by a finite sequence of
`AddRobot`, `DeleteRobot` and `UpdateReferenceValues` calls, the record stored
under a key has that key as its code. -/
theorem reachable_key_is_code (calls : List Call) (k : String) (r : Robot)
    (h : (runCalls NewRobotStore calls).Robots.lookup k = some r) : r.Code = k :=
  runCalls_invariant (fun s => ∀ k r, s.Robots.lookup k = some r → r.Code = k)
    step_keeps_key_is_code calls NewRobotStore
    (fun k r hk => by rw [show NewRobotStore.Robots = ∅ from rfl, AList.lookup_empty] at hk; cases hk)
    k r h

/-- Instance of C9: after R1 is written, replaced and R2 written and deleted, the
record under `R1` has code `R1`. -/
theorem reachable_key_is_code_witness :
    (runCalls NewRobotStore
        [Call.addRobot r1Car, Call.addRobot r2Humanoid, Call.addRobot r1Cyborg,
         Call.deleteRobot "R2"]).Robots.lookup "R1" = some r1Cyborg ∧
    r1Cyborg.Code = "R1" :=
  ⟨by decide,
   reachable_key_is_code
     [Call.addRobot r1Car, Call.addRobot r2Humanoid, Call.addRobot r1Cyborg,
      Call.deleteRobot "R2"] "R1" r1Cyborg (by decide)⟩

/-- C10: `UpdateReferenceValues` is idempotent: applied twice in a row with the
same new values it yields the same store, hence the same catalog with the same
lists in the same order, as applied once. It is a total function with no error
result. -/
theorem UpdateReferenceValues_idempotent (rs : RobotStore) (newRefs : ReferenceValues) :
    UpdateReferenceValues (UpdateReferenceValues rs newRefs) newRefs
      = UpdateReferenceValues rs newRefs ∧
    (UpdateReferenceValues (UpdateReferenceValues rs newRefs) newRefs).Refs
      = (UpdateReferenceValues rs newRefs).Refs := by
  have h : UpdateReferenceValues (UpdateReferenceValues rs newRefs) newRefs
      = UpdateReferenceValues rs newRefs := by
    show ({ Robots := _, Refs := { Models := _, Techs := _, Status := _ } } : RobotStore) = _
    simp only [UpdateReferenceValues, appendMissing_idem]
  exact ⟨h, by rw [h]⟩

/-- Instance of C10: merging models `[bike, bike]` and techs `[AI, drone]` into the
default store twice gives what merging them once gives. -/
theorem UpdateReferenceValues_idempotent_witness :
    (UpdateReferenceValues
        (UpdateReferenceValues NewRobotStore
          { Models := ["bike", "bike"], Techs := ["AI", "drone"], Status := [] })
        { Models := ["bike", "bike"], Techs := ["AI", "drone"], Status := [] }).Refs
      = { Models := ["car", "humanoid", "transformation", "bike"]
          Techs := ["AI", "car", "robot", "cyborg", "humanoid", "drone"]
          Status := ["progress", "active", "inactive"] } :=
  (UpdateReferenceValues_idempotent NewRobotStore
    { Models := ["bike", "bike"], Techs := ["AI", "drone"], Status := [] }).2.trans (by decide)

/-! ## Catalog updates and validation -/

/-- C11: when every value of `newRefs` is already in the corresponding vocabulary
(empty lists included), `UpdateReferenceValues` leaves the three vocabularies as
they were, in length and in order; the store as a whole is unchanged. -/
theorem UpdateReferenceValues_of_known_values (rs : RobotStore) (newRefs : ReferenceValues)
    (hm : ∀ v ∈ newRefs.Models, v ∈ rs.Refs.Models)
    (ht : ∀ v ∈ newRefs.Techs, v ∈ rs.Refs.Techs)
    (hs : ∀ v ∈ newRefs.Status, v ∈ rs.Refs.Status) :
    ((UpdateReferenceValues rs newRefs).Refs.Models = rs.Refs.Models ∧
      (UpdateReferenceValues rs newRefs).Refs.Techs = rs.Refs.Techs ∧
      (UpdateReferenceValues rs newRefs).Refs.Status = rs.Refs.Status) ∧
    ((UpdateReferenceValues rs newRefs).Refs.Models.length = rs.Refs.Models.length ∧
      (UpdateReferenceValues rs newRefs).Refs.Techs.length = rs.Refs.Techs.length ∧
      (UpdateReferenceValues rs newRefs).Refs.Status.length = rs.Refs.Status.length) ∧
    UpdateReferenceValues rs newRefs = rs := by
  have h1 : (UpdateReferenceValues rs newRefs).Refs.Models = rs.Refs.Models :=
    appendMissing_of_subset _ _ hm
  have h2 : (UpdateReferenceValues rs newRefs).Refs.Techs = rs.Refs.Techs :=
    appendMissing_of_subset _ _ ht
  have h3 : (UpdateReferenceValues rs newRefs).Refs.Status = rs.Refs.Status :=
    appendMissing_of_subset _ _ hs
  refine ⟨⟨h1, h2, h3⟩, ⟨by rw [h1], by rw [h2], by rw [h3]⟩, ?_⟩
  show ({ Robots := rs.Robots
          Refs := { Models := appendMissing rs.Refs.Models newRefs.Models
                    Techs := appendMissing rs.Refs.Techs newRefs.Techs
                    Status := appendMissing rs.Refs.Status newRefs.Status } } : RobotStore) = rs
  rw [appendMissing_of_subset _ _ hm, appendMissing_of_subset _ _ ht,
    appendMissing_of_subset _ _ hs]

/-- Scenario of C11: merging models `[car]` into the default catalog leaves the
models `[car, humanoid, transformation]`. -/
theorem UpdateReferenceValues_of_known_values_witness :
    (UpdateReferenceValues NewRobotStore
        { Models := ["car"], Techs := [], Status := [] }).Refs.Models
      = ["car", "humanoid", "transformation"] ∧
    (UpdateReferenceValues NewRobotStore
        { Models := ["car"], Techs := [], Status := [] }).Refs.Models.length = 3 :=
  ⟨(UpdateReferenceValues_of_known_values NewRobotStore
      { Models := ["car"], Techs := [], Status := [] }
      (by decide) (by decide) (by decide)).1.1,
   (UpdateReferenceValues_of_known_values NewRobotStore
      { Models := ["car"], Techs := [], Status := [] }
      (by decide) (by decide) (by decide)).2.1.1⟩

/-- C12: for a record with non-empty code and name whose model, techs and status
are each either in the current vocabulary or in the corresponding list of
`newRefs`, `AddRobot` succeeds after `UpdateReferenceValues newRefs`. -/
theorem AddRobot_after_UpdateReferenceValues (rs : RobotStore) (newRefs : ReferenceValues)
    (r : Robot) (hc : r.Code ≠ "") (hn : r.Name ≠ "")
    (hm : r.Model ∈ rs.Refs.Models ∨ r.Model ∈ newRefs.Models)
    (ht : ∀ t ∈ r.Tech, t ∈ rs.Refs.Techs ∨ t ∈ newRefs.Techs)
    (hs : r.Status ∈ rs.Refs.Status ∨ r.Status ∈ newRefs.Status) :
    (AddRobot (UpdateReferenceValues rs newRefs) r).2 = none ∧
    GetRobot (AddRobot (UpdateReferenceValues rs newRefs) r).1 r.Code = (r, true) := by
  have hok : (AddRobot (UpdateReferenceValues rs newRefs) r).2 = none :=
    (AddRobot_ok_iff _ r).2
      ⟨hc, (mem_appendMissing _ _ _).2 hm, fun t h => (mem_appendMissing _ _ _).2 (ht t h),
        (mem_appendMissing _ _ _).2 hs, hn⟩
  refine ⟨hok, ?_⟩
  unfold GetRobot
  rw [AddRobot_ok_store _ r hok]
  simp [AList.lookup_insert]

/-- Instance of C12: the record with model `bike` and tech `drone` is rejected by
the default store and accepted once `bike` and `drone` have been merged in. -/
theorem AddRobot_after_UpdateReferenceValues_witness :
    (AddRobot NewRobotStore r3Bike).2 ≠ none ∧
    (AddRobot (UpdateReferenceValues NewRobotStore
        { Models := ["bike"], Techs := ["drone"], Status := [] }) r3Bike).2 = none :=
  ⟨by decide,
   (AddRobot_after_UpdateReferenceValues NewRobotStore
      { Models := ["bike"], Techs := ["drone"], Status := [] } r3Bike
      (by decide) (by decide) (by decide) (by decide) (by decide)).1⟩

/-- C13: `UpdateReferenceValues` leaves the `Robots` mapping unchanged: the same
codes are present and each maps to the same record as before. -/
theorem UpdateReferenceValues_keeps_Robots (rs : RobotStore) (newRefs : ReferenceValues) :
    (UpdateReferenceValues rs newRefs).Robots = rs.Robots ∧
    (∀ c : String,
      GetRobot (UpdateReferenceValues rs newRefs) c = GetRobot rs c ∧
        ExistsRobot (UpdateReferenceValues rs newRefs) c = ExistsRobot rs c) :=
  ⟨rfl, fun _ => ⟨rfl, rfl⟩⟩

/-- Instance of C13: R1 is still there, unchanged, after a catalog update. -/
theorem UpdateReferenceValues_keeps_Robots_witness :
    GetRobot (UpdateReferenceValues (AddRobot NewRobotStore r1Car).1
        { Models := ["bike"], Techs := ["drone"], Status := ["lost"] }) "R1" = (r1Car, true) :=
  ((UpdateReferenceValues_keeps_Robots (AddRobot NewRobotStore r1Car).1
      { Models := ["bike"], Techs := ["drone"], Status := ["lost"] }).2 "R1").1.trans
    (by decide)

/-! ## The handlers -/

theorem containsTech_iff (l : List String) (v : String) : containsTech l v = true ↔ v ∈ l := by
  induction l with
  | nil => simp [containsTech]
  | cons item rest ih =>
    by_cases h : item = v
    · simp [containsTech, h]
    · have h2 : ¬ v = item := fun e => h e.symm
      simp [containsTech, h, h2, ih]

theorem matchTechs_iff (robotTech techs : List String) :
    matchTechs robotTech techs = true ↔ ∀ t ∈ techs, t ∈ robotTech := by
  induction techs with
  | nil => simp [matchTechs]
  | cons t rest ih =>
    by_cases h : containsTech robotTech t = true
    · simp [matchTechs, h, ih, (containsTech_iff _ _).1 h]
    · have hn : t ∉ robotTech := fun hm => h ((containsTech_iff _ _).2 hm)
      simp [matchTechs, h, hn]

/-- The loop of `getRobots` appends, in order, the robots that pass both tests. -/
theorem getRobotsLoop_eq_filter (m q : String) (techs : List String) (acc l : List Robot) :
    getRobotsLoop m q techs acc l
      = acc ++ l.filter (fun r =>
          decide ((m = "" ∨ r.Model = m) ∧ (q = "" ∨ ∀ t ∈ techs, t ∈ r.Tech))) := by
  induction l generalizing acc with
  | nil => simp [getRobotsLoop]
  | cons r rest ih =>
    by_cases h1 : m ≠ "" ∧ r.Model ≠ m
    · have hf : ¬ ((m = "" ∨ r.Model = m) ∧ (q = "" ∨ ∀ t ∈ techs, t ∈ r.Tech)) := by
        rintro ⟨h | h, _⟩
        · exact h1.1 h
        · exact h1.2 h
      rw [getRobotsLoop, if_pos h1, ih, List.filter_cons_of_neg (by simpa using hf)]
    · by_cases h2 : q ≠ "" ∧ matchTechs r.Tech techs = false
      · have hf : ¬ ((m = "" ∨ r.Model = m) ∧ (q = "" ∨ ∀ t ∈ techs, t ∈ r.Tech)) := by
          rintro ⟨_, h | h⟩
          · exact h2.1 h
          · rw [(matchTechs_iff _ _).2 h] at h2
            exact absurd h2.2 (by simp)
        rw [getRobotsLoop, if_neg h1, if_pos h2, ih,
          List.filter_cons_of_neg (by simpa using hf)]
      · have ht : (m = "" ∨ r.Model = m) ∧ (q = "" ∨ ∀ t ∈ techs, t ∈ r.Tech) := by
          constructor
          · by_contra hc
            push_neg at hc
            exact h1 hc
          · by_cases hq : q = ""
            · exact Or.inl hq
            · right
              apply (matchTechs_iff _ _).1
              by_contra hc
              exact h2 ⟨hq, by simpa using hc⟩
        rw [getRobotsLoop, if_neg h1, if_neg h2, ih,
          List.filter_cons_of_pos (by simpa using ht), List.append_assoc,
          List.singleton_append]

/-- C14, the code at the failing request: `handleReferences` reads the catalog
without calling any lock method, so its trace breaks the lock discipline; the
other handlers take the lock once (`getRobots` and `getRobotByCode` in shared
mode), access the store only while holding it, and release it on every path. -/
theorem handleReferences_reads_without_lock (rs : RobotStore) :
    (handleReferences rs).trace = [Event.read] ∧
    disciplined (handleReferences rs).trace = false ∧
    (∀ m q : String,
      (getRobots rs m q).trace = [Event.LockRead, Event.read, Event.UnlockRead] ∧
        disciplined (getRobots rs m q).trace = true) ∧
    (∀ c : String,
      (getRobotByCode rs c).trace = [Event.LockRead, Event.read, Event.UnlockRead] ∧
        disciplined (getRobotByCode rs c).trace = true) ∧
    (∀ (method : String) (d : Option ReferenceValues),
      disciplined (handleReferencesUpdate rs method d).trace = true) ∧
    (∀ d : Option Robot, disciplined (createRobot rs d).trace = true) ∧
    (∀ (c : String) (d : Option Robot), disciplined (updateRobot rs c d).trace = true) ∧
    (∀ c : String, disciplined (deleteRobot rs c).trace = true) := by
  refine ⟨rfl, rfl, fun m q => ⟨rfl, rfl⟩, ?_, ?_, ?_, ?_, ?_⟩
  · intro c
    unfold getRobotByCode
    split <;> exact ⟨rfl, rfl⟩
  · intro method d
    unfold handleReferencesUpdate
    split
    · rfl
    · cases d <;> rfl
  · intro d
    unfold createRobot
    cases d with
    | none => rfl
    | some robot =>
      simp only
      split
      · rfl
      · split <;> rfl
  · intro c d
    unfold updateRobot
    split
    · rfl
    · cases d with
      | none => rfl
      | some body =>
        simp only
        split <;> rfl
  · intro c
    unfold deleteRobot
    split <;> rfl

theorem lookup_eq_some_iff (m : RobotMap) (k : String) (r : Robot) :
    m.lookup k = some r ↔ (⟨k, r⟩ : Sigma (fun _ : String => Robot)) ∈ m.entries := by
  rw [← AList.mem_lookup_iff, Option.mem_def]

theorem stored_iff_mem_values (m : RobotMap) (r : Robot) :
    (∃ k, m.lookup k = some r) ↔ r ∈ m.entries.map (fun e => e.2) := by
  rw [List.mem_map]
  constructor
  · rintro ⟨k, hk⟩
    exact ⟨⟨k, r⟩, (lookup_eq_some_iff m k r).1 hk, rfl⟩
  · rintro ⟨⟨k, x⟩, he, hx⟩
    cases hx
    exact ⟨k, (lookup_eq_some_iff m k x).2 he⟩

/-- C15: the list produced by `getRobots` holds a record exactly when the record is
stored and (the model query is empty or equals its model) and (the tech query is
empty or every comma-separated item of it is among its techs). The list is the
records found under a duplicate-free enumeration of exactly the matching keys, so
each matching entry of the store contributes once; where keys are the codes of
their records, each matching record occurs exactly once. The store is not
changed. -/
theorem getRobots_lists_matching (rs : RobotStore) (m q : String) :
    (getRobots rs m q).store = rs ∧
    ∃ out : List Robot, (getRobots rs m q).body = Body.robots out ∧
      (∀ r : Robot, r ∈ out ↔ (∃ k, rs.Robots.lookup k = some r) ∧ matchesQuery m q r) ∧
      (∃ ks : List String, ks.Nodup ∧
        (∀ k, k ∈ ks ↔ ∃ r, rs.Robots.lookup k = some r ∧ matchesQuery m q r) ∧
        ks.map (fun k => rs.Robots.lookup k) = out.map some) ∧
      ((∀ k r, rs.Robots.lookup k = some r → r.Code = k) →
        out.Nodup ∧
          ∀ r, (∃ k, rs.Robots.lookup k = some r) → matchesQuery m q r → out.count r = 1) := by
  refine ⟨rfl,
    (rs.Robots.entries.map (fun e => e.2)).filter (fun r => decide (matchesQuery m q r)),
    ?_, ?_, ?_, ?_⟩
  · simp only [getRobots, getRobotsLoop_eq_filter, List.nil_append]
    congr 1
  · intro r
    rw [List.mem_filter, stored_iff_mem_values, decide_eq_true_iff]
  · refine ⟨(rs.Robots.entries.filter (fun e => decide (matchesQuery m q e.2))).map
      (fun e => e.1), ?_, ?_, ?_⟩
    · have hk : (rs.Robots.entries.map (fun e => e.1)).Nodup := rs.Robots.nodupKeys
      exact hk.sublist ((List.filter_sublist _).map _)
    · intro k
      rw [List.mem_map]
      constructor
      · rintro ⟨⟨k2, r⟩, he, hk⟩
        cases hk
        rw [List.mem_filter, decide_eq_true_iff] at he
        exact ⟨r, (lookup_eq_some_iff _ _ _).2 he.1, he.2⟩
      · rintro ⟨r, hl, hq⟩
        refine ⟨⟨k, r⟩, ?_, rfl⟩
        rw [List.mem_filter, decide_eq_true_iff]
        exact ⟨(lookup_eq_some_iff _ _ _).1 hl, hq⟩
    · rw [List.map_map, List.filter_map, List.map_map]
      apply List.map_congr_left
      rintro ⟨k, r⟩ he
      exact (lookup_eq_some_iff _ _ _).2 (List.mem_of_mem_filter he)
  · intro hcode
    have hnd : (List.filter (fun r => decide (matchesQuery m q r))
        (rs.Robots.entries.map (fun e => e.2))).Nodup := by
      apply List.Nodup.filter
      apply List.Nodup.map_on _ rs.Robots.nodupKeys.nodup
      rintro ⟨k1, r1⟩ h1 ⟨k2, r2⟩ h2 heq
      have e1 := hcode k1 r1 ((lookup_eq_some_iff _ _ _).2 h1)
      have e2 := hcode k2 r2 ((lookup_eq_some_iff _ _ _).2 h2)
      simp only at heq
      subst heq
      rw [← e1, ← e2]
    refine ⟨hnd, ?_⟩
    intro r hst hq
    apply List.count_eq_one_of_mem hnd
    rw [List.mem_filter, ← stored_iff_mem_values, decide_eq_true_iff]
    exact ⟨hst, hq⟩

/-- Instance of C15: with R1 (techs `[AI]`) and R2 (techs `[robot, AI]`) stored,
the tech query `AI,robot` lists R2, once, and not R1. -/
theorem getRobots_lists_matching_witness :
    (getRobots (AddRobot (AddRobot NewRobotStore r1Car).1 r2Humanoid).1 "" "AI,robot").body
      = Body.robots [r2Humanoid] ∧
    ∃ out : List Robot,
      (getRobots (AddRobot (AddRobot NewRobotStore r1Car).1 r2Humanoid).1 "" "AI,robot").body
        = Body.robots out ∧
      r2Humanoid ∈ out ∧ r1Car ∉ out := by
  obtain ⟨_, out, hb, hmem, _, _⟩ :=
    getRobots_lists_matching (AddRobot (AddRobot NewRobotStore r1Car).1 r2Humanoid).1 ""
      "AI,robot"
  exact ⟨by decide, out, hb, (hmem r2Humanoid).2 ⟨⟨"R2", by decide⟩, by decide⟩,
    fun h => absurd ((hmem r1Car).1 h).2 (by decide)⟩

/-- C16: `updateRobot` with path code `c` and decoded body `b`. If `c` is not in
the store it answers 404 and leaves the store unchanged. Otherwise it validates
`b` with its `Code` replaced by `c`: on success it answers 200 and the store maps
`c` to that record, every other code (the own code of `b` included) maps to what
it did, and the catalog is unchanged; on a validation error it answers 400 with
the text of the error and leaves the store unchanged. The own code of `b` never
matters. -/
theorem updateRobot_replaces_under_path_code (rs : RobotStore) (c : String) (b : Robot) :
    (ExistsRobot rs c = false →
      (updateRobot rs c (some b)).status = 404 ∧ (updateRobot rs c (some b)).store = rs) ∧
    (ExistsRobot rs c = true → (AddRobot rs { b with Code := c }).2 = none →
      (updateRobot rs c (some b)).status = 200 ∧
      (updateRobot rs c (some b)).body = Body.robot { b with Code := c } ∧
      (updateRobot rs c (some b)).store.Robots.lookup c = some { b with Code := c } ∧
      (∀ d : String, d ≠ c →
        (updateRobot rs c (some b)).store.Robots.lookup d = rs.Robots.lookup d) ∧
      (updateRobot rs c (some b)).store.Refs = rs.Refs) ∧
    (ExistsRobot rs c = true → ∀ e, (AddRobot rs { b with Code := c }).2 = some e →
      (updateRobot rs c (some b)).status = 400 ∧
      (updateRobot rs c (some b)).body = Body.error e.Error ∧
      (updateRobot rs c (some b)).store = rs) ∧
    (∀ x : String, updateRobot rs c (some { b with Code := x }) = updateRobot rs c (some b)) ∧
    ((updateRobot rs c (some b)).status = 200 ↔
      ExistsRobot rs c = true ∧ c ≠ "" ∧ b.Model ∈ rs.Refs.Models ∧
        (∀ t ∈ b.Tech, t ∈ rs.Refs.Techs) ∧ b.Status ∈ rs.Refs.Status ∧ b.Name ≠ "") := by
  refine ⟨?_, ?_, ?_, ?_, ?_⟩
  · intro hex
    simp [updateRobot, hex]
  · intro hex hok
    have hst : (updateRobot rs c (some b)).store
        = { rs with Robots := rs.Robots.insert c { b with Code := c } } := by
      simp only [updateRobot, hex, hok, Bool.true_eq_false, if_false]
      exact AddRobot_ok_store rs { b with Code := c } hok
    refine ⟨by simp [updateRobot, hex, hok], by simp [updateRobot, hex, hok], ?_, ?_, ?_⟩
    · rw [hst]; exact AList.lookup_insert _
    · intro d hd
      rw [hst]; exact AList.lookup_insert_ne hd
    · rw [hst]
  · intro hex e he
    refine ⟨by simp [updateRobot, hex, he], by simp [updateRobot, hex, he], ?_⟩
    simp only [updateRobot, hex, he, Bool.true_eq_false, if_false]
    exact AddRobot_err_store rs { b with Code := c } (by rw [he]; simp)
  · intro x
    rfl
  · cases hex : ExistsRobot rs c with
    | false => simp [updateRobot, hex]
    | true =>
      have hiff := AddRobot_ok_iff rs { b with Code := c }
      cases hadd : (AddRobot rs { b with Code := c }).2 with
      | none =>
        have hv := hiff.1 hadd
        simp only [updateRobot, hex, hadd, Bool.true_eq_false, if_false, true_and, true_iff]
        exact hv
      | some e =>
        have hv : ¬ (c ≠ "" ∧ b.Model ∈ rs.Refs.Models ∧ (∀ t ∈ b.Tech, t ∈ rs.Refs.Techs) ∧
            b.Status ∈ rs.Refs.Status ∧ b.Name ≠ "") := fun hall => by
          rw [hiff.2 hall] at hadd; cases hadd
        simp only [updateRobot, hex, hadd, Bool.true_eq_false, if_false, true_and]
        constructor
        · intro h; exact absurd h (by decide)
        · intro h; exact absurd h hv

/-- Instance of C16: with R1 and R2 stored, a PUT on `R1` whose body carries the
code `R2` replaces R1 and leaves R2 alone; a PUT on the absent `R7` answers 404; a
PUT on `R1` with the model `spaceship` answers 400 and keeps R1. -/
theorem updateRobot_replaces_under_path_code_witness :
    GetRobot (updateRobot (AddRobot (AddRobot NewRobotStore r1Car).1 r2Humanoid).1 "R1"
        (some { r1Cyborg with Code := "R2" })).store "R1" = (r1Cyborg, true) ∧
    GetRobot (updateRobot (AddRobot (AddRobot NewRobotStore r1Car).1 r2Humanoid).1 "R1"
        (some { r1Cyborg with Code := "R2" })).store "R2" = (r2Humanoid, true) ∧
    (updateRobot (AddRobot (AddRobot NewRobotStore r1Car).1 r2Humanoid).1 "R7"
        (some r1Cyborg)).status = 404 ∧
    (updateRobot (AddRobot (AddRobot NewRobotStore r1Car).1 r2Humanoid).1 "R1"
        (some r1Spaceship)).store = (AddRobot (AddRobot NewRobotStore r1Car).1 r2Humanoid).1 :=
  ⟨by decide, by decide,
   ((updateRobot_replaces_under_path_code
      (AddRobot (AddRobot NewRobotStore r1Car).1 r2Humanoid).1 "R7" r1Cyborg).1 (by decide)).1,
   ((updateRobot_replaces_under_path_code
      (AddRobot (AddRobot NewRobotStore r1Car).1 r2Humanoid).1 "R1" r1Spaceship).2.2.1
      (by decide)
      { Field := "Model", Message := "Invalid model. Allowed models: [car humanoid transformation]" }
      (by decide)).2.2⟩

/-! ## The text of validation errors -/

theorem occursIn_self (v : String) : occursIn v v :=
  ⟨"", "", by rw [String.empty_append, String.append_empty]⟩

theorem occursIn_append_right (v x y : String) (h : occursIn v x) : occursIn v (x ++ y) := by
  obtain ⟨p, q, hx⟩ := h
  exact ⟨p, q ++ y, by rw [hx, String.append_assoc]⟩

theorem occursIn_append_left (v x y : String) (h : occursIn v y) : occursIn v (x ++ y) := by
  obtain ⟨p, q, hy⟩ := h
  exact ⟨x ++ p, q, by rw [hy, String.append_assoc, String.append_assoc, String.append_assoc]⟩

theorem occursIn_intercalate_go_acc (v sep : String) (l : List String) (acc : String)
    (h : occursIn v acc) : occursIn v (String.intercalate.go acc sep l) := by
  induction l generalizing acc with
  | nil => exact h
  | cons a rest ih =>
    show occursIn v (String.intercalate.go (acc ++ sep ++ a) sep rest)
    exact ih _ (occursIn_append_right _ _ _ (occursIn_append_right _ _ _ h))

theorem occursIn_intercalate_go_mem (v sep : String) (l : List String) (acc : String)
    (h : v ∈ l) : occursIn v (String.intercalate.go acc sep l) := by
  induction l generalizing acc with
  | nil => cases h
  | cons a rest ih =>
    rcases List.mem_cons.1 h with hva | hrest
    · subst hva
      show occursIn v (String.intercalate.go (acc ++ sep ++ v) sep rest)
      exact occursIn_intercalate_go_acc _ _ _ _ (occursIn_append_left _ _ _ (occursIn_self v))
    · show occursIn v (String.intercalate.go (acc ++ sep ++ a) sep rest)
      exact ih _ hrest

theorem occursIn_intercalate (v sep : String) (l : List String) (h : v ∈ l) :
    occursIn v (sep.intercalate l) := by
  cases l with
  | nil => cases h
  | cons a rest =>
    rcases List.mem_cons.1 h with hva | hrest
    · subst hva
      show occursIn v (String.intercalate.go v sep rest)
      exact occursIn_intercalate_go_acc _ _ _ _ (occursIn_self v)
    · show occursIn v (String.intercalate.go a sep rest)
      exact occursIn_intercalate_go_mem _ _ _ _ hrest

theorem occursIn_fmtSlice (v : String) (l : List String) (h : v ∈ l) :
    occursIn v (fmtSlice l) :=
  occursIn_append_right _ _ _ (occursIn_append_left _ _ _ (occursIn_intercalate v " " l h))

/-- The five errors `AddRobot` can return. -/
theorem AddRobot_error_forms (rs : RobotStore) (r : Robot) (e : ValidationError)
    (h : (AddRobot rs r).2 = some e) :
    e = { Field := "Code", Message := "Code cannot be empty" } ∨
    e = { Field := "Model"
          Message := "Invalid model. Allowed models: " ++ fmtSlice rs.Refs.Models } ∨
    (∃ tech, e = { Field := "Tech"
                   Message := "Invalid tech: " ++ tech ++ ". Allowed techs: "
                     ++ fmtSlice rs.Refs.Techs }) ∨
    e = { Field := "Status"
          Message := "Invalid status. Allowed status: " ++ fmtSlice rs.Refs.Status } ∨
    e = { Field := "Name", Message := "Name cannot be empty" } := by
  unfold AddRobot at h
  by_cases hc : r.Code = ""
  · simp [hc] at h
    exact Or.inl h.symm
  by_cases hm : contains rs.Refs.Models r.Model = true
  swap
  · simp [hc, hm] at h
    exact Or.inr (Or.inl h.symm)
  cases ht : firstInvalidTech rs.Refs.Techs r.Tech with
  | some t =>
    simp [hc, hm, ht] at h
    exact Or.inr (Or.inr (Or.inl ⟨t, h.symm⟩))
  | none =>
    by_cases hs : contains rs.Refs.Status r.Status = true
    swap
    · simp [hc, hm, ht, hs] at h
      exact Or.inr (Or.inr (Or.inr (Or.inl h.symm)))
    by_cases hn : r.Name = ""
    · simp [hc, hm, ht, hs, hn] at h
      exact Or.inr (Or.inr (Or.inr (Or.inr h.symm)))
    · simp [hc, hm, ht, hs, hn] at h

/-- C17: an error returned by `AddRobot` has one of the five field names; `Error`
renders it as the field, a colon and a space, and the message; and for a `Model`,
`Tech` or `Status` error the message ends with the rendering of the current
vocabulary of that field, so every value currently allowed occurs in it. -/
theorem AddRobot_error_lists_allowed_values (rs : RobotStore) (r : Robot)
    (e : ValidationError) (h : (AddRobot rs r).2 = some e) :
    e.Error = e.Field ++ ": " ++ e.Message ∧
    (e.Field = "Code" ∨ e.Field = "Model" ∨ e.Field = "Tech" ∨ e.Field = "Status" ∨
      e.Field = "Name") ∧
    (e.Field = "Model" →
      e.Message = "Invalid model. Allowed models: " ++ fmtSlice rs.Refs.Models ∧
        ∀ v ∈ rs.Refs.Models, occursIn v e.Message) ∧
    (e.Field = "Tech" →
      (∃ tech, e.Message = "Invalid tech: " ++ tech ++ ". Allowed techs: "
          ++ fmtSlice rs.Refs.Techs) ∧
        ∀ v ∈ rs.Refs.Techs, occursIn v e.Message) ∧
    (e.Field = "Status" →
      e.Message = "Invalid status. Allowed status: " ++ fmtSlice rs.Refs.Status ∧
        ∀ v ∈ rs.Refs.Status, occursIn v e.Message) := by
  refine ⟨rfl, ?_, ?_, ?_, ?_⟩
  · rcases AddRobot_error_forms rs r e h with h1 | h1 | ⟨t, h1⟩ | h1 | h1 <;> subst h1 <;> simp
  · intro hf
    rcases AddRobot_error_forms rs r e h with h1 | h1 | ⟨t, h1⟩ | h1 | h1 <;> subst h1
    · simp at hf
    · exact ⟨rfl, fun v hv => occursIn_append_left _ _ _ (occursIn_fmtSlice v _ hv)⟩
    · simp at hf
    · simp at hf
    · simp at hf
  · intro hf
    rcases AddRobot_error_forms rs r e h with h1 | h1 | ⟨t, h1⟩ | h1 | h1 <;> subst h1
    · simp at hf
    · simp at hf
    · exact ⟨⟨t, rfl⟩, fun v hv => occursIn_append_left _ _ _ (occursIn_fmtSlice v _ hv)⟩
    · simp at hf
    · simp at hf
  · intro hf
    rcases AddRobot_error_forms rs r e h with h1 | h1 | ⟨t, h1⟩ | h1 | h1 <;> subst h1
    · simp at hf
    · simp at hf
    · simp at hf
    · exact ⟨rfl, fun v hv => occursIn_append_left _ _ _ (occursIn_fmtSlice v _ hv)⟩
    · simp at hf

/-- Instance of C17: after `bike` has been merged into the models, the error for
the model `spaceship` reads `Model: Invalid model. Allowed models: [car humanoid
transformation bike]`, and `bike` occurs in its message. -/
theorem AddRobot_error_lists_allowed_values_witness :
    (AddRobot (UpdateReferenceValues NewRobotStore
        { Models := ["bike"], Techs := [], Status := [] }) r1Spaceship).2
      = some { Field := "Model"
               Message := "Invalid model. Allowed models: [car humanoid transformation bike]" } ∧
    ValidationError.Error
        { Field := "Model"
          Message := "Invalid model. Allowed models: [car humanoid transformation bike]" }
      = "Model: Invalid model. Allowed models: [car humanoid transformation bike]" ∧
    occursIn "bike" "Invalid model. Allowed models: [car humanoid transformation bike]" :=
  ⟨by decide, by decide,
   ((AddRobot_error_lists_allowed_values
      (UpdateReferenceValues NewRobotStore { Models := ["bike"], Techs := [], Status := [] })
      r1Spaceship
      { Field := "Model"
        Message := "Invalid model. Allowed models: [car humanoid transformation bike]" }
      (by decide)).2.2.1 rfl).2 "bike" (by decide)⟩

/-! ## Loading the seed records -/

theorem AddRobot_ok_congr (rs rs2 : RobotStore) (r : Robot) (h : rs.Refs = rs2.Refs) :
    (AddRobot rs r).2 = none ↔ (AddRobot rs2 r).2 = none := by
  rw [AddRobot_ok_iff, AddRobot_ok_iff, h]

theorem loadInitialData_append (rs : RobotStore) (l l2 : List Robot) :
    loadInitialData rs (l ++ l2) = loadInitialData (loadInitialData rs l) l2 := by
  induction l generalizing rs with
  | nil => rfl
  | cons x rest ih => exact ih _

theorem loadInitialData_Refs (rs : RobotStore) (l : List Robot) :
    (loadInitialData rs l).Refs = rs.Refs := by
  induction l generalizing rs with
  | nil => rfl
  | cons x rest ih =>
    show (loadInitialData (AddRobot rs x).1 rest).Refs = rs.Refs
    rw [ih, AddRobot_Refs]

theorem loadInitialData_lookup (rs : RobotStore) (l : List Robot) (c : String) :
    (loadInitialData rs l).Robots.lookup c
      = match (l.filter (fun r => decide (r.Code = c ∧ (AddRobot rs r).2 = none))).getLast? with
        | some r => some r
        | none => rs.Robots.lookup c := by
  induction l using List.reverseRecOn with
  | nil => rfl
  | append_singleton l x ih =>
    have hload : loadInitialData rs (l ++ [x]) = (AddRobot (loadInitialData rs l) x).1 := by
      rw [loadInitialData_append]; rfl
    have hcongr := AddRobot_ok_congr (loadInitialData rs l) rs x (loadInitialData_Refs rs l)
    rw [hload, List.filter_append]
    by_cases hp : x.Code = c ∧ (AddRobot rs x).2 = none
    · have hok := hcongr.2 hp.2
      rw [List.filter_cons_of_pos (by simpa using hp), List.filter_nil, List.getLast?_concat,
        AddRobot_ok_store _ x hok, ← hp.1]
      exact AList.lookup_insert _
    · rw [List.filter_cons_of_neg (by simpa using hp), List.filter_nil, List.append_nil, ← ih]
      by_cases hok : (AddRobot (loadInitialData rs l) x).2 = none
      · have hne : c ≠ x.Code := fun hc => hp ⟨hc.symm, hcongr.1 hok⟩
        rw [AddRobot_ok_store _ x hok]
        exact AList.lookup_insert_ne hne
      · rw [AddRobot_err_store _ x hok]

/-- C18: loading a list of seed records into a fresh store, by `AddRobot` on each
in order with its error dropped, yields a store that maps a code to the last
seed record with that code that passes validation against the default catalog,
and holds a code iff there is such a record. A seed record that fails validation
leaves the store as it was when its turn comes, and the load goes on as if the
record were not in the list. The catalog stays the default one. -/
theorem loadInitialData_keeps_last_valid (seeds : List Robot) :
    (∀ c : String,
      (loadInitialData NewRobotStore seeds).Robots.lookup c
        = (seeds.filter
            (fun r => decide (r.Code = c ∧ (AddRobot NewRobotStore r).2 = none))).getLast?) ∧
    (∀ c : String,
      ExistsRobot (loadInitialData NewRobotStore seeds) c = true
        ↔ ∃ r ∈ seeds, r.Code = c ∧ (AddRobot NewRobotStore r).2 = none) ∧
    (∀ (pre : List Robot) (bad : Robot) (post : List Robot),
      seeds = pre ++ bad :: post → (AddRobot NewRobotStore bad).2 ≠ none →
      (AddRobot (loadInitialData NewRobotStore pre) bad).1 = loadInitialData NewRobotStore pre ∧
        loadInitialData NewRobotStore seeds = loadInitialData NewRobotStore (pre ++ post)) ∧
    (loadInitialData NewRobotStore seeds).Refs = NewRobotStore.Refs := by
  have hlook : ∀ c : String,
      (loadInitialData NewRobotStore seeds).Robots.lookup c
        = (seeds.filter
            (fun r => decide (r.Code = c ∧ (AddRobot NewRobotStore r).2 = none))).getLast? := by
    intro c
    rw [loadInitialData_lookup]
    cases (seeds.filter
      (fun r => decide (r.Code = c ∧ (AddRobot NewRobotStore r).2 = none))).getLast? with
    | some r => rfl
    | none => rfl
  refine ⟨hlook, ?_, ?_, loadInitialData_Refs _ _⟩
  · intro c
    unfold ExistsRobot
    rw [hlook c]
    cases hf : seeds.filter
      (fun r => decide (r.Code = c ∧ (AddRobot NewRobotStore r).2 = none)) with
    | nil =>
      simp only [List.getLast?_nil, Bool.false_eq_true, false_iff]
      rintro ⟨r, hr, hp⟩
      have hmem : r ∈ seeds.filter
          (fun r => decide (r.Code = c ∧ (AddRobot NewRobotStore r).2 = none)) := by
        rw [List.mem_filter]; exact ⟨hr, by simpa using hp⟩
      rw [hf] at hmem
      cases hmem
    | cons y ys =>
      have hy : y ∈ seeds.filter
          (fun r => decide (r.Code = c ∧ (AddRobot NewRobotStore r).2 = none)) := by
        rw [hf]; exact List.mem_cons_self _ _
      rw [List.mem_filter] at hy
      have hsome : ∃ z, (y :: ys).getLast? = some z :=
        ⟨(y :: ys).getLast (List.cons_ne_nil _ _), List.getLast?_eq_getLast _ _⟩
      obtain ⟨z, hz⟩ := hsome
      rw [hz]
      simp only [true_iff]
      exact ⟨y, hy.1, by simpa using hy.2⟩
  · intro pre bad post hsplit hbad
    have hbad2 : (AddRobot (loadInitialData NewRobotStore pre) bad).2 ≠ none := fun hok =>
      hbad ((AddRobot_ok_congr _ _ bad (loadInitialData_Refs NewRobotStore pre)).1 hok)
    have hsame := AddRobot_err_store _ bad hbad2
    refine ⟨hsame, ?_⟩
    rw [hsplit, loadInitialData_append, loadInitialData_append]
    show loadInitialData (AddRobot (loadInitialData NewRobotStore pre) bad).1 post = _
    rw [hsame]

/-- Instance of C18: of the seeds R1 (car), R1 (spaceship, invalid), R3 (bike,
invalid under the defaults), R1 (cyborg) and R2, the store keeps the cyborg R1 and
R2, and no R3. -/
theorem loadInitialData_keeps_last_valid_witness :
    (loadInitialData NewRobotStore
        [r1Car, r1Spaceship, r3Bike, r1Cyborg, r2Humanoid]).Robots.lookup "R1" = some r1Cyborg ∧
    (loadInitialData NewRobotStore
        [r1Car, r1Spaceship, r3Bike, r1Cyborg, r2Humanoid]).Robots.lookup "R2"
      = some r2Humanoid ∧
    (loadInitialData NewRobotStore
        [r1Car, r1Spaceship, r3Bike, r1Cyborg, r2Humanoid]).Robots.lookup "R3" = none ∧
    loadInitialData NewRobotStore [r1Car, r1Spaceship, r3Bike, r1Cyborg, r2Humanoid]
      = loadInitialData NewRobotStore [r1Car, r1Spaceship, r1Cyborg, r2Humanoid] :=
  ⟨((loadInitialData_keeps_last_valid
      [r1Car, r1Spaceship, r3Bike, r1Cyborg, r2Humanoid]).1 "R1").trans (by decide),
   by decide, by decide,
   ((loadInitialData_keeps_last_valid
      [r1Car, r1Spaceship, r3Bike, r1Cyborg, r2Humanoid]).2.2.1
      [r1Car, r1Spaceship] r3Bike [r1Cyborg, r2Humanoid] rfl (by decide)).2⟩

/-! ## Algebra of catalog updates -/

theorem appendMissing_append (cur a b : List String) :
    appendMissing (appendMissing cur a) b = appendMissing cur (a ++ b) := by
  induction a generalizing cur with
  | nil => rfl
  | cons v rest ih =>
    have hl : appendMissing cur (v :: rest)
        = if !contains cur v then appendMissing (cur ++ [v]) rest
          else appendMissing cur rest := rfl
    have hr : appendMissing cur (v :: rest ++ b)
        = if !contains cur v then appendMissing (cur ++ [v]) (rest ++ b)
          else appendMissing cur (rest ++ b) := rfl
    rw [hl, hr]
    split
    · exact ih _
    · exact ih _

/-- C19: validation is monotone in the catalog: a record `AddRobot` accepts is
still accepted after `UpdateReferenceValues`, and after any finite sequence of
such updates. -/
theorem AddRobot_monotone_in_catalog (rs : RobotStore) (r : Robot) (newRefs : ReferenceValues)
    (h : (AddRobot rs r).2 = none) :
    (AddRobot (UpdateReferenceValues rs newRefs) r).2 = none ∧
    (∀ updates : List ReferenceValues,
      (AddRobot (updates.foldl UpdateReferenceValues rs) r).2 = none) := by
  have hstep : ∀ (s : RobotStore) (n : ReferenceValues),
      (AddRobot s r).2 = none → (AddRobot (UpdateReferenceValues s n) r).2 = none := by
    intro s n hs
    obtain ⟨h1, h2, h3, h4, h5⟩ := (AddRobot_ok_iff s r).1 hs
    exact (AddRobot_ok_iff _ r).2
      ⟨h1, (mem_appendMissing _ _ _).2 (Or.inl h2),
        fun t ht => (mem_appendMissing _ _ _).2 (Or.inl (h3 t ht)),
        (mem_appendMissing _ _ _).2 (Or.inl h4), h5⟩
  refine ⟨hstep rs newRefs h, ?_⟩
  intro updates
  induction updates generalizing rs with
  | nil => exact h
  | cons n rest ih => exact ih (UpdateReferenceValues rs n) (hstep rs n h)

/-- Instance of C19: R1 is accepted by the default store and still accepted after
the catalog has grown. -/
theorem AddRobot_monotone_in_catalog_witness :
    (AddRobot NewRobotStore r1Car).2 = none ∧
    (AddRobot (UpdateReferenceValues NewRobotStore
        { Models := ["bike"], Techs := ["drone"], Status := ["lost"] }) r1Car).2 = none :=
  ⟨by decide,
   (AddRobot_monotone_in_catalog NewRobotStore r1Car
      { Models := ["bike"], Techs := ["drone"], Status := ["lost"] } (by decide)).1⟩

/-- C20: two catalog updates in a row give exactly the store one update gives whose
three lists are the concatenations of theirs; in the other order they give, in
each vocabulary, the same values (the order of the values may differ). -/
theorem UpdateReferenceValues_compose (rs : RobotStore) (a b : ReferenceValues) :
    UpdateReferenceValues (UpdateReferenceValues rs a) b
      = UpdateReferenceValues rs
          { Models := a.Models ++ b.Models, Techs := a.Techs ++ b.Techs
            Status := a.Status ++ b.Status } ∧
    (∀ v : String,
      (v ∈ (UpdateReferenceValues (UpdateReferenceValues rs a) b).Refs.Models
        ↔ v ∈ (UpdateReferenceValues (UpdateReferenceValues rs b) a).Refs.Models) ∧
      (v ∈ (UpdateReferenceValues (UpdateReferenceValues rs a) b).Refs.Techs
        ↔ v ∈ (UpdateReferenceValues (UpdateReferenceValues rs b) a).Refs.Techs) ∧
      (v ∈ (UpdateReferenceValues (UpdateReferenceValues rs a) b).Refs.Status
        ↔ v ∈ (UpdateReferenceValues (UpdateReferenceValues rs b) a).Refs.Status)) := by
  constructor
  · simp only [UpdateReferenceValues, appendMissing_append]
  · intro v
    simp only [UpdateReferenceValues, mem_appendMissing]
    exact ⟨by tauto, by tauto, by tauto⟩

/-- Instance of C20: merging models `[bike]` then `[boat]` equals merging
`[bike, boat]`; merging them in the other order gives the same values in another
order. -/
theorem UpdateReferenceValues_compose_witness :
    (UpdateReferenceValues
        (UpdateReferenceValues NewRobotStore { Models := ["bike"], Techs := [], Status := [] })
        { Models := ["boat"], Techs := [], Status := [] }).Refs.Models
      = ["car", "humanoid", "transformation", "bike", "boat"] ∧
    (UpdateReferenceValues
        (UpdateReferenceValues NewRobotStore { Models := ["boat"], Techs := [], Status := [] })
        { Models := ["bike"], Techs := [], Status := [] }).Refs.Models
      = ["car", "humanoid", "transformation", "boat", "bike"] :=
  ⟨(congrArg (fun s => s.Refs.Models)
      (UpdateReferenceValues_compose NewRobotStore
        { Models := ["bike"], Techs := [], Status := [] }
        { Models := ["boat"], Techs := [], Status := [] }).1).trans (by decide),
   by decide⟩

end models
